import Mathlib

/-!
# BasePVStructureArray

A shallow embedding of `pvDataApp/factory/DefaultPVStructureArray.cpp`
(EPICS pvDataCPP): the array of structures with its capacity management,
compaction, bounded `put`/`get` and the size-prefixed, presence-tagged wire
codec.

Conventions of the embedding.

* C++ `int` is `Int`.  Signed overflow is undefined behaviour in C++ and is
  not modelled: a sum of two arguments (`offset+number` in `remove`,
  `offset+len` in `put` and `get`) is the sum of the source only when it is
  representable, that is at most 2147483647.  The statements on what `remove`,
  `put` and `get` return for given arguments carry that bound as a hypothesis.
* A `PVStructurePtr` is `Option PVStructure`; the null pointer is `none`.
* The slot table `value` is a list.  It is allocated with exactly
  `getCapacity()` entries (`new PVStructurePtr[0]` in the constructor,
  `new PVStructurePtr[capacity]` followed by `setCapacityLength(capacity, ..)`
  in `setCapacity`), so `getCapacity` is the size of `value`.
* An access outside an array, a negative array size, an exception and a
  transport failure end the call with a `Failure`.
* `delete p` appends the element to the log `deleted`; `postPut()` counts in
  `postPuts`; `message(.., errorMessage)` appends to `messages`.
* A `for` loop whose counter starts at a constant runs on a `Nat` counter with
  the number of iterations as the structurally decreasing argument.
-/

namespace PVData

/-- The introspection descriptor of a structure (`StructureConstPtr`); the
source compares descriptors by pointer, the embedding by this identity. -/
abbrev StructureConstPtr := Nat

/-- Modelled from the spec: the element class `PVStructure` (declared in
pvData.h), "an independently-owned instance of a fixed record layout": the
type of the structure and the payload. -/
structure PVStructure where
  getStructure : StructureConstPtr
  payload : List Int
deriving DecidableEq, Repr

/-- A `PVStructurePtr`: `none` is the null pointer. -/
abbrev PVStructurePtr := Option PVStructure

/-- The introspection object of the array (`StructureArrayConstPtr`);
`getStructure` is the element type. -/
structure StructureArray where
  getStructure : StructureConstPtr
deriving DecidableEq, Repr

/-- The two texts the source passes to `message(.., errorMessage)`. -/
inductive MessageText where
  | notCapacityMutable
  | fieldIsImmutable
deriving DecidableEq, Repr

/-- The object state of a `BasePVStructureArray` together with the part of
its `PVArray`/`PVField` base it uses. -/
structure BasePVStructureArray where
  structureArray : StructureArray
  value : List PVStructurePtr
  length : Int
  capacityMutable : Bool
  immutable : Bool
  deleted : List PVStructure
  messages : List MessageText
  postPuts : Nat
deriving DecidableEq, Repr

/-- How a call can end without returning. -/
inductive Failure where
  /-- an index outside the array it is applied to (undefined behaviour) -/
  | outOfBounds
  /-- `new PVStructurePtr[n]` with `n < 0` -/
  | badArrayNewLength
  /-- `std::invalid_argument` thrown by `put`, with the state at the throw -/
  | invalidArgument (state : BasePVStructureArray)
  /-- the transport cannot supply the bytes asked for -/
  | endOfData
  /-- `putByte` on a full buffer -/
  | bufferOverflow
deriving DecidableEq, Repr

/-- Modelled from the spec: the external collaborators of the container
(pvData.h, serializeHelper.h, byteBuffer.h are outside src/).
`defaultPayload` is the payload of the element `createPVStructure` builds;
`sizeBytes`/`readSize` are the size-header codec of `SerializeHelper`;
`payloadBytes`/`decodePayload` are `PVStructure::serialize` and
`PVStructure::deserialize` (decoding in place: the receiving element is an
argument, the new payload and the rest of the input are returned). -/
structure External where
  defaultPayload : StructureConstPtr → List Int
  sizeBytes : Int → List Int
  readSize : List Int → Option (Int × List Int)
  payloadBytes : PVStructure → List Int
  decodePayload : PVStructure → List Int → Option (List Int × List Int)

/-- Modelled from the spec: `PVDataCreate::createPVStructure(0, structure)`,
"constructs a default-initialized element given a structure-type
descriptor". -/
def createPVStructure (x : External) (structure_ : StructureConstPtr) : PVStructure :=
  { getStructure := structure_, payload := x.defaultPayload structure_ }

/-- The constructor: `value(new PVStructurePtr[0])`, length 0; the two flags
of the base class are given. -/
def construct (structureArray : StructureArray) (capacityMutable immutable_ : Bool) :
    BasePVStructureArray :=
  { structureArray := structureArray, value := [], length := 0,
    capacityMutable := capacityMutable, immutable := immutable_,
    deleted := [], messages := [], postPuts := 0 }

/-- `PVArray::getCapacity()`: the number of allocated slots. -/
def getCapacity (s : BasePVStructureArray) : Int := s.value.length

/-- `PVArray::getLength()`. -/
def getLength (s : BasePVStructureArray) : Int := s.length

/-- `PVArray::isCapacityMutable()`. -/
def isCapacityMutable (s : BasePVStructureArray) : Bool := s.capacityMutable

/-- `PVField::isImmutable()`. -/
def isImmutable (s : BasePVStructureArray) : Bool := s.immutable

/-- Modelled from the spec: `PVArray::setCapacityMutable`, the setter of the
`capacityMutable` flag of the data model. -/
def setCapacityMutable (b : Bool) (s : BasePVStructureArray) : BasePVStructureArray :=
  { s with capacityMutable := b }

/-- Modelled from the spec: the setter of the `immutable` flag of the data
model. -/
def setImmutable (b : Bool) (s : BasePVStructureArray) : BasePVStructureArray :=
  { s with immutable := b }

/-- Modelled from the spec: `PVArray::setLength` (outside src/), "Set
`length = size`" and "updates `length` to the new extent". -/
def setLength (length : Int) (s : BasePVStructureArray) : BasePVStructureArray :=
  { s with length := length }

/-- `PVField::postPut()`: the post-mutation notification, counted. -/
def postPut (s : BasePVStructureArray) : BasePVStructureArray :=
  { s with postPuts := s.postPuts + 1 }

/-- `PVField::message(text, errorMessage)`. -/
def message (m : MessageText) (s : BasePVStructureArray) : BasePVStructureArray :=
  { s with messages := s.messages ++ [m] }

/-- The read `a[i]` of a C array of `a.length` entries. -/
def readAt (a : List PVStructurePtr) (i : Int) : Except Failure PVStructurePtr :=
  if 0 ≤ i ∧ i < a.length then .ok (a.getD i.toNat none) else .error .outOfBounds

/-- The write `a[i] = p` of a C array of `a.length` entries. -/
def writeAt (a : List PVStructurePtr) (i : Int) (p : PVStructurePtr) :
    Except Failure (List PVStructurePtr) :=
  if 0 ≤ i ∧ i < a.length then .ok (a.set i.toNat p) else .error .outOfBounds

/-- The loop of `remove`: `for(i=offset; i<offset+number; i++)`, with the
number of iterations left as second argument. -/
def removeLoop (i : Int) : Nat → BasePVStructureArray → Except Failure BasePVStructureArray
  | 0, s => .ok s
  | n + 1, s =>
    match readAt s.value i with
    | .error f => .error f
    | .ok none => removeLoop (i + 1) n s
    | .ok (some e) =>
      match writeAt s.value i none with
      | .error f => .error f
      | .ok v => removeLoop (i + 1) n { s with value := v, deleted := s.deleted ++ [e] }

/-- `BasePVStructureArray::remove(offset, number)`.  The guard adds
`offset+number` without overflow: it is the guard of the source for
`offset + number ≤ 2147483647`. -/
def remove (offset number : Int) (s : BasePVStructureArray) :
    Except Failure (Bool × BasePVStructureArray) :=
  let length := getCapacity s
  if offset + number > length then .ok (false, s)
  else
    match removeLoop offset number.toNat s with
    | .error f => .error f
    | .ok s1 => .ok (true, s1)

/-- `BasePVStructureArray::setCapacity(capacity)`.  The local `length` is
`getCapacity()`, as in the source; the two copy loops build `newValue`. -/
def setCapacity (capacity : Int) (s : BasePVStructureArray) :
    Except Failure BasePVStructureArray :=
  if getCapacity s = capacity then .ok s
  else if !isCapacityMutable s then .ok (message .notCapacityMutable s)
  else
    let length := getCapacity s
    let numRemove := length - capacity
    match (if numRemove > 0 then remove length numRemove s else .ok (true, s)) with
    | .error f => .error f
    | .ok (_, s1) =>
      if capacity < 0 then .error .badArrayNewLength
      else
        let limit := if length > capacity then capacity else length
        let newValue := s1.value.take limit.toNat ++ List.replicate (capacity - limit).toNat none
        let length := if length > capacity then capacity else length
        .ok { s1 with value := newValue, length := length }

/-- The loop of `append`: `value[i] = createPVStructure(0, structure)` for
`i` from `currentLength` up to `newLength`. -/
def appendLoop (x : External) (structure_ : StructureConstPtr) (i : Int) :
    Nat → List PVStructurePtr → Except Failure (List PVStructurePtr)
  | 0, v => .ok v
  | n + 1, v =>
    match writeAt v i (some (createPVStructure x structure_)) with
    | .error f => .error f
    | .ok v1 => appendLoop x structure_ (i + 1) n v1

/-- `BasePVStructureArray::append(number)`: the returned value and the new
state. -/
def append (x : External) (number : Int) (s : BasePVStructureArray) :
    Except Failure (Int × BasePVStructureArray) :=
  let currentLength := getCapacity s
  let newLength := currentLength + number
  match setCapacity newLength s with
  | .error f => .error f
  | .ok s1 =>
    let structure_ := s1.structureArray.getStructure
    match appendLoop x structure_ currentLength (newLength - currentLength).toNat s1.value with
    | .error f => .error f
    | .ok v => .ok (newLength, { s1 with value := v })

/-- The out-parameter of `get`: the slot table and the offset of the window. -/
structure StructureArrayData where
  data : List PVStructurePtr
  offset : Int
deriving DecidableEq, Repr

/-- `BasePVStructureArray::get(offset, len, data)`: the returned `n`, what is
stored in `data`, and the (untouched) object state.  The sum `offset + len` is
taken without overflow: it is the sum of the source for
`offset + len ≤ 2147483647`. -/
def get (offset len : Int) (s : BasePVStructureArray) :
    Int × StructureArrayData × BasePVStructureArray :=
  let n := len
  let length := getLength s
  let n := if offset + len > length then
      (let n := length - offset
       if n < 0 then 0 else n)
    else n
  (n, { data := s.value, offset := offset }, s)

/-- The inner loop of `compress`: `notNull`, the first `j` from the given
one up to `length` with `value[j] != 0`, and 0 when there is none; the second
argument is the number of iterations left. -/
def findNotNull (value : List PVStructurePtr) : Nat → Nat → Nat
  | _, 0 => 0
  | j, n + 1 => if (value.getD j none).isSome then j else findNotNull value (j + 1) n

/-- The outer loop of `compress` from index `i`, with the number of
iterations left as second argument; the result is the slot table and
`newLength` at the end of the loop.  Every index is below `length`, the size
of the table. -/
def compressLoop (length : Nat) :
    Nat → Nat → List PVStructurePtr → Int → List PVStructurePtr × Int
  | _, 0, value, newLength => (value, newLength)
  | i, n + 1, value, newLength =>
    if (value.getD i none).isSome then
      compressLoop length (i + 1) n value (newLength + 1)
    else
      let notNull := findNotNull value (i + 1) (length - (i + 1))
      if notNull ≠ 0 then
        compressLoop length (i + 1) n
          ((value.set i (value.getD notNull none)).set notNull none) (newLength + 1)
      else (value, newLength)

/-- `BasePVStructureArray::compress()`. -/
def compress (s : BasePVStructureArray) : Except Failure BasePVStructureArray :=
  let length := getCapacity s
  let r := compressLoop length.toNat 0 length.toNat s.value 0
  setCapacity r.2 { s with value := r.1 }

/-- The occupied slots of a slot table, in order. -/
def occupied (value : List PVStructurePtr) : List PVStructurePtr :=
  value.filter (fun p => p.isSome)

/-- The argument `from` of `put`: the container's own slot table
(`from==value`) or another array. -/
inductive PVStructurePtrArray where
  | value
  | array (a : List PVStructurePtr)
deriving DecidableEq, Repr

/-- The statement `if(p != 0) delete p;`. -/
def deletePtr (p : PVStructurePtr) (s : BasePVStructureArray) : BasePVStructureArray :=
  match p with
  | some e => { s with deleted := s.deleted ++ [e] }
  | none => s

/-- The copy loop of `put` from index `i`, with the number of iterations left
as second argument. -/
def putLoop (structure_ : StructureConstPtr) (offset : Int) (from_ : List PVStructurePtr)
    (fromOffset : Int) : Nat → Nat → BasePVStructureArray → Except Failure BasePVStructureArray
  | _, 0, s => .ok s
  | i, n + 1, s =>
    match readAt s.value (i + offset) with
    | .error f => .error f
    | .ok old =>
      let s1 := deletePtr old s
      match readAt from_ (i + fromOffset) with
      | .error f => .error f
      | .ok none =>
        match writeAt s1.value (i + offset) none with
        | .error f => .error f
        | .ok v => putLoop structure_ offset from_ fromOffset (i + 1) n { s1 with value := v }
      | .ok (some frompv) =>
        if frompv.getStructure ≠ structure_ then .error (.invalidArgument s1)
        else
          match writeAt s1.value (i + offset) (some frompv) with
          | .error f => .error f
          | .ok v => putLoop structure_ offset from_ fromOffset (i + 1) n { s1 with value := v }

/-- The end of `put`, from `structure = structureArray->getStructure()` on:
the copy loop, `postPut()` and `return len`. -/
def putCopy (offset len : Int) (from_ : List PVStructurePtr) (fromOffset : Int)
    (s : BasePVStructureArray) : Except Failure (Int × BasePVStructureArray) :=
  let structure_ := s.structureArray.getStructure
  match putLoop structure_ offset from_ fromOffset 0 len.toNat s with
  | .error f => .error f
  | .ok s1 => .ok (len, postPut s1)

/-- `BasePVStructureArray::put(offset, len, from, fromOffset)`: the returned
value and the new state.  The sum `offset + len` is taken without overflow:
it is the sum of the source for `offset + len ≤ 2147483647`. -/
def put (offset len : Int) (from_ : PVStructurePtrArray) (fromOffset : Int)
    (s : BasePVStructureArray) : Except Failure (Int × BasePVStructureArray) :=
  if isImmutable s then .ok (0, message .fieldIsImmutable s)
  else
    match from_ with
    | .value => .ok (len, s)
    | .array a =>
      if len < 1 then .ok (0, s)
      else
        let length := getLength s
        let capacity := getCapacity s
        if offset + len > length then
          let newlength := offset + len
          if newlength > capacity then
            match setCapacity newlength s with
            | .error f => .error f
            | .ok s1 =>
              let capacity := getCapacity s1
              let newlength := capacity
              let len := newlength - offset
              if len ≤ 0 then .ok (0, s1)
              else putCopy offset len a fromOffset (setLength newlength s1)
          else putCopy offset len a fromOffset (setLength newlength s)
        else putCopy offset len a fromOffset s

/-- Modelled from the spec: the `ByteBuffer` on the writing side with its
`SerializableControl` (byteBuffer.h and serialize.h are outside src/): the
bytes already flushed to the transport, the bytes in the buffer and the size
of the buffer. -/
structure ByteBuffer where
  flushed : List Int
  pending : List Int
  limit : Nat
deriving DecidableEq, Repr

/-- Modelled from the spec: `ByteBuffer::getRemaining()`,
"remainingWriteCapacity". -/
def getRemaining (b : ByteBuffer) : Int := (b.limit : Int) - b.pending.length

/-- Modelled from the spec: `SerializableControl::flushSerializeBuffer()`,
"drains BoundedBuffer and resets it for more writes". -/
def flushSerializeBuffer (b : ByteBuffer) : ByteBuffer :=
  { b with flushed := b.flushed ++ b.pending, pending := [] }

/-- Modelled from the spec: `ByteBuffer::putByte`. -/
def putByte (byte : Int) (b : ByteBuffer) : Except Failure ByteBuffer :=
  if getRemaining b < 1 then .error .bufferOverflow
  else .ok { b with pending := b.pending ++ [byte] }

/-- The bytes a sink has received, in order. -/
def written (b : ByteBuffer) : List Int := b.flushed ++ b.pending

/-- Modelled from the spec: how the external writers (`writeSize`, the
element's `serialize`) put their bytes: flushing when the buffer is full,
then `putByte`. -/
def putBytes : List Int → ByteBuffer → Except Failure ByteBuffer
  | [], b => .ok b
  | byte :: rest, b =>
    match putByte byte (if getRemaining b < 1 then flushSerializeBuffer b else b) with
    | .error f => .error f
    | .ok b1 => putBytes rest b1

/-- The loop of `serialize(pbuffer, pflusher, offset, count)` from index `i`,
with the number of iterations left as second argument. -/
def serializeLoop (x : External) (value : List PVStructurePtr) (offset : Int) :
    Nat → Nat → ByteBuffer → Except Failure ByteBuffer
  | _, 0, b => .ok b
  | i, n + 1, b =>
    let b1 := if getRemaining b < 1 then flushSerializeBuffer b else b
    match readAt value (i + offset) with
    | .error f => .error f
    | .ok none =>
      match putByte 0 b1 with
      | .error f => .error f
      | .ok b2 => serializeLoop x value offset (i + 1) n b2
    | .ok (some pvStructure) =>
      match putByte 1 b1 with
      | .error f => .error f
      | .ok b2 =>
        match putBytes (x.payloadBytes pvStructure) b2 with
        | .error f => .error f
        | .ok b3 => serializeLoop x value offset (i + 1) n b3

/-- `BasePVStructureArray::serialize(pbuffer, pflusher, offset, count)`; the
method is `const`, the result is the sink. -/
def serializeOffsetCount (x : External) (pbuffer : ByteBuffer) (offset count : Int)
    (s : BasePVStructureArray) : Except Failure ByteBuffer :=
  let length := getLength s
  let offset := if offset < 0 then 0 else if offset > length then length else offset
  let count := if count < 0 then length else count
  let maxCount := length - offset
  let count := if count > maxCount then maxCount else count
  match putBytes (x.sizeBytes count) pbuffer with
  | .error f => .error f
  | .ok b1 => serializeLoop x s.value offset 0 count.toNat b1

/-- `BasePVStructureArray::serialize(pbuffer, pflusher)`. -/
def serialize (x : External) (pbuffer : ByteBuffer) (s : BasePVStructureArray) :
    Except Failure ByteBuffer :=
  serializeOffsetCount x pbuffer 0 (getLength s) s

/-- The element a slot holds after
`if(value[i]==NULL) value[i] = createPVStructure(NULL, structure)`. -/
def orCreate (x : External) (structure_ : StructureConstPtr) (p : PVStructurePtr) : PVStructure :=
  match p with
  | none => createPVStructure x structure_
  | some e => e

/-- The loop of `deserialize` from index `i`, with the number of iterations
left as second argument; the input is the bytes the buffer and its
`DeserializableControl` deliver, in order: `ensureData(1)` fails on an empty
input, `getByte()` takes the first byte. -/
def deserializeLoop (x : External) :
    Nat → Nat → BasePVStructureArray → List Int →
      Except Failure (BasePVStructureArray × List Int)
  | _, 0, s, input => .ok (s, input)
  | i, n + 1, s, input =>
    match input with
    | [] => .error .endOfData
    | temp :: rest =>
      match readAt s.value i with
      | .error f => .error f
      | .ok p =>
        if temp = 0 then
          match p with
          | some e =>
            match writeAt s.value i none with
            | .error f => .error f
            | .ok v =>
              deserializeLoop x (i + 1) n { s with value := v, deleted := s.deleted ++ [e] } rest
          | none => deserializeLoop x (i + 1) n s rest
        else
          let e := orCreate x s.structureArray.getStructure p
          match x.decodePayload e rest with
          | none => .error .endOfData
          | some (payload, rest1) =>
            match writeAt s.value i (some { e with payload := payload }) with
            | .error f => .error f
            | .ok v => deserializeLoop x (i + 1) n { s with value := v } rest1

/-- `BasePVStructureArray::deserialize(pbuffer, pcontrol)`: the new state and
the input left. -/
def deserialize (x : External) (input : List Int) (s : BasePVStructureArray) :
    Except Failure (BasePVStructureArray × List Int) :=
  match x.readSize input with
  | none => .error .endOfData
  | some (size, rest) =>
    if size ≥ 0 then
      match (if size > getCapacity s then setCapacity size s else .ok s) with
      | .error f => .error f
      | .ok s1 =>
        match deserializeLoop x 0 size.toNat s1 rest with
        | .error f => .error f
        | .ok (s2, rest1) => .ok (postPut (setLength size s2), rest1)
    else .ok (s, rest)

/-- The wire form of a run of slots as the specification gives it: for each
slot the presence byte `0` when it is empty, otherwise the presence byte `1`
followed by the element's own serialization. -/
def wireEntries (x : External) : List PVStructurePtr → List Int
  | [] => []
  | none :: rest => 0 :: wireEntries x rest
  | some e :: rest => 1 :: (x.payloadBytes e ++ wireEntries x rest)

/-- What a slot becomes when its wire form is decoded into an empty slot of a
container of element type `structure_`: an empty slot stays empty, an
element arrives as an element of that type with the same payload. -/
def received (structure_ : StructureConstPtr) (p : PVStructurePtr) : PVStructurePtr :=
  p.map (fun e => { getStructure := structure_, payload := e.payload })

/-- The states a container can be in: those of a freshly constructed
container and those left by a call of `append`, `remove`, `compress`,
`setCapacity`, `put` (returning, or throwing `std::invalid_argument`) or
`deserialize` on such a state, the two flags being set freely between the
calls. -/
inductive Reachable (x : External) : BasePVStructureArray → Prop where
  | construct (structureArray : StructureArray) (capacityMutable immutable_ : Bool) :
      Reachable x (construct structureArray capacityMutable immutable_)
  | setCapacityMutable (b : Bool) {s : BasePVStructureArray} :
      Reachable x s → Reachable x (setCapacityMutable b s)
  | setImmutable (b : Bool) {s : BasePVStructureArray} :
      Reachable x s → Reachable x (setImmutable b s)
  | append (number r : Int) {s s1 : BasePVStructureArray} :
      Reachable x s → append x number s = .ok (r, s1) → Reachable x s1
  | remove (offset number : Int) (r : Bool) {s s1 : BasePVStructureArray} :
      Reachable x s → remove offset number s = .ok (r, s1) → Reachable x s1
  | compress {s s1 : BasePVStructureArray} :
      Reachable x s → compress s = .ok s1 → Reachable x s1
  | setCapacity (capacity : Int) {s s1 : BasePVStructureArray} :
      Reachable x s → setCapacity capacity s = .ok s1 → Reachable x s1
  | putReturns (offset len : Int) (from_ : PVStructurePtrArray) (fromOffset r : Int)
      {s s1 : BasePVStructureArray} :
      Reachable x s → put offset len from_ fromOffset s = .ok (r, s1) → Reachable x s1
  | putThrows (offset len : Int) (from_ : PVStructurePtrArray) (fromOffset : Int)
      {s s1 : BasePVStructureArray} :
      Reachable x s → put offset len from_ fromOffset s = .error (.invalidArgument s1) →
      Reachable x s1
  | deserialize (input rest : List Int) {s s1 : BasePVStructureArray} :
      Reachable x s → deserialize x input s = .ok (s1, rest) → Reachable x s1

/-- Every occupied slot of a slot table holds an element of structure type
`structure_`. -/
def slotsTyped (structure_ : StructureConstPtr) (value : List PVStructurePtr) : Prop :=
  ∀ e : PVStructure, some e ∈ value → e.getStructure = structure_

/-- Type homogeneity: every occupied slot holds an element whose structure
type is the element type of the container. -/
def typeHomogeneous (s : BasePVStructureArray) : Prop :=
  slotsTyped s.structureArray.getStructure s.value

/-- What the specification says `deserialize` does with a run of slots and the
input after the size header: for each slot it reads the presence byte; `0`
leaves the slot empty; any other byte decodes the payload into the element of
the slot, a fresh default element when the slot was empty.  The result pairs
each presence byte with the new slot and gives the input left; `none` when the
input is not well formed. -/
def decodeEntries (x : External) (structure_ : StructureConstPtr) :
    List PVStructurePtr → List Int → Option (List (Int × PVStructurePtr) × List Int)
  | [], input => some ([], input)
  | _ :: _, [] => none
  | p :: slots, temp :: rest =>
    if temp = 0 then
      match decodeEntries x structure_ slots rest with
      | none => none
      | some (entries, rest1) => some ((temp, none) :: entries, rest1)
    else
      match x.decodePayload (orCreate x structure_ p) rest with
      | none => none
      | some (payload, rest1) =>
        match decodeEntries x structure_ slots rest1 with
        | none => none
        | some (entries, rest2) =>
          some ((temp, some { orCreate x structure_ p with payload := payload }) :: entries, rest2)

/-! ## Sample data -/

/-- One concrete set of collaborators: the size header is one byte holding the
size, an element is written as the length of its payload followed by the
payload, and a default element has an empty payload. -/
def sampleExternal : External :=
  { defaultPayload := fun _ => [],
    sizeBytes := fun n => [n],
    readSize := fun l =>
      match l with
      | [] => none
      | n :: r => some (n, r),
    payloadBytes := fun e => (e.payload.length : Int) :: e.payload,
    decodePayload := fun _ l =>
      match l with
      | [] => none
      | n :: r => if r.length < n.toNat then none else some (r.take n.toNat, r.drop n.toNat) }

/-- An element of structure type 7 with a one-word payload. -/
def sampleElement (n : Int) : PVStructure := { getStructure := 7, payload := [n] }

/-- A freshly created container of element type 7, capacity mutable. -/
def sampleEmpty : BasePVStructureArray := construct { getStructure := 7 } true false

/-- A freshly created container of element type 7 whose capacity is fixed. -/
def sampleFixed : BasePVStructureArray := construct { getStructure := 7 } false false

/-- Capacity 3, length 0, three default elements: `sampleEmpty` after
`append(3)`. -/
def sampleThree : BasePVStructureArray :=
  { sampleEmpty with
    value := [some (createPVStructure sampleExternal 7), some (createPVStructure sampleExternal 7),
      some (createPVStructure sampleExternal 7)] }

/-- Scenario B of the specification: five slots, those at 1 and 3 empty. -/
def scenarioB : BasePVStructureArray :=
  { sampleEmpty with
    value := [some (sampleElement 0), none, some (sampleElement 2), none, some (sampleElement 4)],
    length := 5 }

/-- Scenario C of the specification: the slots of Scenario B in an immutable
container. -/
def scenarioC : BasePVStructureArray := setImmutable true scenarioB

/-- Capacity 3, length 0, the slot at 1 empty: `sampleThree` after
`remove(1, 1)`. -/
def sampleHole : BasePVStructureArray :=
  { sampleThree with
    value := [some (createPVStructure sampleExternal 7), none,
      some (createPVStructure sampleExternal 7)],
    deleted := [createPVStructure sampleExternal 7] }

/-- Two empty slots in a container of element type 7 whose capacity is fixed. -/
def sampleFixedTwo : BasePVStructureArray :=
  { sampleFixed with value := [none, none] }

/-- An element of structure type 8. -/
def otherElement : PVStructure := { getStructure := 8, payload := [] }

/-! ## Lemmas on the slot table and on `setCapacity` -/

theorem readAt_ok (a : List PVStructurePtr) (i : Nat) (h : i < a.length) :
    readAt a (i : Int) = .ok (a.getD i none) := by
  unfold readAt
  have h1 : (0 : Int) ≤ (i : Int) ∧ (i : Int) < (a.length : Int) := ⟨by omega, by omega⟩
  rw [if_pos h1]; simp

theorem writeAt_ok (a : List PVStructurePtr) (i : Nat) (p : PVStructurePtr) (h : i < a.length) :
    writeAt a (i : Int) p = .ok (a.set i p) := by
  unfold writeAt
  have h1 : (0 : Int) ≤ (i : Int) ∧ (i : Int) < (a.length : Int) := ⟨by omega, by omega⟩
  rw [if_pos h1]; simp

theorem remove_beyond (s : BasePVStructureArray) (k : Int) (hk : 0 < k) :
    remove (getCapacity s) k s = .ok (false, s) := by
  unfold remove
  simp only []
  rw [if_pos (by omega)]

/-- The closed form of a `setCapacity` that is carried out. -/
theorem setCapacity_changes (n : Int) (s : BasePVStructureArray) (hne : getCapacity s ≠ n)
    (hm : s.capacityMutable = true) (hn : 0 ≤ n) :
    setCapacity n s = .ok { s with
      value := s.value.take (min (getCapacity s) n).toNat ++
        List.replicate (n - min (getCapacity s) n).toNat none,
      length := min (getCapacity s) n } := by
  unfold setCapacity
  rw [if_neg hne]
  simp only [isCapacityMutable, hm, Bool.not_true, Bool.false_eq_true, if_false]
  by_cases hlt : getCapacity s - n > 0
  · rw [if_pos hlt, remove_beyond s _ hlt]
    simp only []
    rw [if_neg (by omega)]
    have h1 : getCapacity s > n := by omega
    simp only [if_pos h1]
    have h2 : min (getCapacity s) n = n := by omega
    rw [h2, hm]
  · rw [if_neg hlt]
    simp only []
    rw [if_neg (by omega)]
    have h1 : ¬ getCapacity s > n := by omega
    simp only [if_neg h1]
    have h2 : min (getCapacity s) n = getCapacity s := by omega
    rw [h2, hm]


theorem setCapacity_same (n : Int) (s : BasePVStructureArray) (h : getCapacity s = n) :
    setCapacity n s = .ok s := by
  unfold setCapacity
  rw [if_pos h]

theorem setCapacity_rejected (n : Int) (s : BasePVStructureArray) (hne : getCapacity s ≠ n)
    (hm : s.capacityMutable = false) :
    setCapacity n s = .ok (message .notCapacityMutable s) := by
  unfold setCapacity
  rw [if_neg hne]
  simp [isCapacityMutable, hm]

theorem getElem?_take_append_replicate (v : List PVStructurePtr) (m k i : Nat) (hm : m ≤ v.length) :
    (v.take m ++ List.replicate k none)[i]? =
      if i < m then v[i]? else if i < m + k then some none else none := by
  have hl : (v.take m).length = m := by simp [hm]
  by_cases h1 : i < m
  · rw [if_pos h1, List.getElem?_append_left (by omega), List.getElem?_take_of_lt h1]
  · rw [if_neg h1, List.getElem?_append_right (by omega), hl]
    by_cases h2 : i < m + k
    · rw [if_pos h2, List.getElem?_replicate, if_pos (by omega)]
    · rw [if_neg h2, List.getElem?_replicate, if_neg (by omega)]

/-- C5. `setCapacity(n)` for `n >= 0`: when `n` is the current capacity or
the capacity is not mutable, slots, capacity and length are unchanged;
otherwise the new capacity is `n`, the slots below `min(old capacity, n)` are
the old ones and the slots from there up to `n` are empty. -/
theorem setCapacity_spec (n : Int) (s : BasePVStructureArray) (hn : 0 ≤ n) :
    ((getCapacity s = n ∨ s.capacityMutable = false) →
      ∃ s1, setCapacity n s = .ok s1 ∧ s1.value = s.value ∧
        getCapacity s1 = getCapacity s ∧ s1.length = s.length) ∧
    ((getCapacity s ≠ n ∧ s.capacityMutable = true) →
      ∃ s1, setCapacity n s = .ok s1 ∧ getCapacity s1 = n ∧
        (∀ i : Nat, (i : Int) < min (getCapacity s) n → s1.value[i]? = s.value[i]?) ∧
        (∀ i : Nat, min (getCapacity s) n ≤ (i : Int) → (i : Int) < n →
          s1.value[i]? = some none)) := by
  constructor
  · intro h
    by_cases he : getCapacity s = n
    · exact ⟨s, setCapacity_same n s he, rfl, rfl, rfl⟩
    · have hm : s.capacityMutable = false := by
        rcases h with h | h
        · exact absurd h he
        · exact h
      exact ⟨_, setCapacity_rejected n s he hm, rfl, rfl, rfl⟩
  · rintro ⟨hne, hm⟩
    refine ⟨_, setCapacity_changes n s hne hm hn, ?_, ?_, ?_⟩
    · simp only [getCapacity, List.length_append, List.length_take, List.length_replicate]
      simp only [getCapacity] at hne
      omega
    · intro i hi
      simp only [getCapacity] at hi ⊢
      rw [getElem?_take_append_replicate _ _ _ _ (by omega), if_pos (by omega)]
    · intro i h1 h2
      simp only [getCapacity] at h1 h2 ⊢
      rw [getElem?_take_append_replicate _ _ _ _ (by omega), if_neg (by omega), if_pos (by omega)]

theorem getD_eq_none_iff (v : List PVStructurePtr) (i : Nat) (h : i < v.length) :
    v.getD i none = none ↔ v[i]? = some none := by
  rw [List.getD_eq_getElem?_getD, List.getElem?_eq_getElem h]
  simp

theorem getElem?_set_slot (v : List PVStructurePtr) (o i : Nat) (p : PVStructurePtr)
    (h : o < v.length) : (v.set o p)[i]? = if o = i then some p else v[i]? := by
  rw [List.getElem?_set]
  by_cases hoi : o = i
  · subst hoi; simp [h]
  · simp [hoi]

/-- What the loop of `remove` does on a range inside the slot table. -/
theorem removeLoop_spec (n : Nat) : ∀ (o : Nat) (s : BasePVStructureArray),
    o + n ≤ s.value.length →
    ∃ s1, removeLoop (o : Int) n s = .ok s1 ∧ s1.value.length = s.value.length ∧
      (∀ i : Nat, s1.value[i]? = if o ≤ i ∧ i < o + n then some none else s.value[i]?) ∧
      s1.length = s.length ∧ s1.structureArray = s.structureArray ∧
      s1.capacityMutable = s.capacityMutable ∧ s1.immutable = s.immutable ∧
      s1.postPuts = s.postPuts ∧ s1.messages = s.messages := by
  induction n with
  | zero =>
    intro o s _
    refine ⟨s, rfl, rfl, ?_, rfl, rfl, rfl, rfl, rfl, rfl⟩
    intro i
    rw [if_neg (by omega)]
  | succ n ih =>
    intro o s h
    have ho : o < s.value.length := by omega
    have hcast : ((o : Int) + 1) = ((o + 1 : Nat) : Int) := by push_cast; rfl
    unfold removeLoop
    rw [readAt_ok _ _ ho]
    cases hp : s.value.getD o none with
    | none =>
      simp only []
      rw [hcast]
      obtain ⟨s1, h1, h2, h3, h4⟩ := ih (o + 1) s (by omega)
      refine ⟨s1, h1, h2, ?_, h4⟩
      intro i
      rw [h3 i]
      have hv := (getD_eq_none_iff _ _ ho).1 hp
      by_cases hio : i = o
      · subst hio
        rw [if_neg (by omega), if_pos (by omega), hv]
      · by_cases hr : o + 1 ≤ i ∧ i < o + 1 + n
        · rw [if_pos hr, if_pos (by omega)]
        · rw [if_neg hr, if_neg (by omega)]
    | some e =>
      simp only []
      rw [writeAt_ok _ _ _ ho]
      simp only []
      rw [hcast]
      obtain ⟨s1, h1, h2, h3, h4⟩ := ih (o + 1)
        { s with value := s.value.set o none, deleted := s.deleted ++ [e] }
        (by simp only [List.length_set]; omega)
      refine ⟨s1, h1, by rw [h2]; simp, ?_, h4⟩
      intro i
      rw [h3 i]
      simp only []
      rw [getElem?_set_slot _ _ _ _ ho]
      by_cases hio : o = i
      · subst hio
        rw [if_neg (by omega), if_pos rfl, if_pos (by omega)]
      · by_cases hr : o + 1 ≤ i ∧ i < o + 1 + n
        · rw [if_pos hr, if_pos (by omega)]
        · rw [if_neg hr, if_neg hio, if_neg (by omega)]

/-- C9. `remove(offset, count)` with `offset >= 0`, `count >= 0` and a sum
`offset + count` that is representable in `int` (at most 2147483647): it
returns false, leaving the container as it is, exactly when
`offset + count > capacity`; otherwise it returns true, the slots of
`[offset, offset+count)` are empty, every other slot is the old one, and length
and capacity are unchanged. -/
theorem remove_spec (offset count : Int) (s : BasePVStructureArray)
    (ho : 0 ≤ offset) (hc : 0 ≤ count) (_hsum : offset + count ≤ 2147483647) :
    (offset + count > getCapacity s → remove offset count s = .ok (false, s)) ∧
    (¬ offset + count > getCapacity s →
      ∃ s1, remove offset count s = .ok (true, s1) ∧
        (∀ i : Nat, offset ≤ (i : Int) → (i : Int) < offset + count →
          s1.value[i]? = some none) ∧
        (∀ i : Nat, ((i : Int) < offset ∨ offset + count ≤ (i : Int)) →
          s1.value[i]? = s.value[i]?) ∧
        s1.length = s.length ∧ getCapacity s1 = getCapacity s) := by
  constructor
  · intro h
    unfold remove
    simp only []
    rw [if_pos h]
  · intro h
    unfold remove
    simp only []
    rw [if_neg h]
    obtain ⟨o, rfl⟩ := Int.eq_ofNat_of_zero_le ho
    obtain ⟨c, rfl⟩ := Int.eq_ofNat_of_zero_le hc
    simp only [getCapacity] at h
    obtain ⟨s1, h1, h2, h3, h4, _⟩ := removeLoop_spec c o s (by omega)
    rw [Int.toNat_ofNat, h1]
    refine ⟨s1, rfl, ?_, ?_, h4, ?_⟩
    · intro i hi1 hi2
      rw [h3 i, if_pos (by omega)]
    · intro i hi
      rw [h3 i, if_neg (by omega)]
    · simp only [getCapacity, h2]

/-- C9 at Scenario B: `remove(1, 2)`. -/
theorem remove_spec_witness :
    (0 : Int) ≤ 1 ∧ (0 : Int) ≤ 2 ∧ (1 : Int) + 2 ≤ 2147483647 ∧
    ¬ (1 : Int) + 2 > getCapacity scenarioB ∧
    ∃ s1, remove 1 2 scenarioB = .ok (true, s1) ∧
        (∀ i : Nat, (1 : Int) ≤ (i : Int) → (i : Int) < 1 + 2 → s1.value[i]? = some none) ∧
        (∀ i : Nat, ((i : Int) < 1 ∨ (1 : Int) + 2 ≤ (i : Int)) →
          s1.value[i]? = scenarioB.value[i]?) ∧
        s1.length = scenarioB.length ∧ getCapacity s1 = getCapacity scenarioB :=
  ⟨by decide, by decide, by decide, by decide,
    (remove_spec 1 2 scenarioB (by decide) (by decide) (by decide)).2 (by decide)⟩

/-- C5 at Scenario B: `setCapacity(2)` on the five slots. -/
theorem setCapacity_spec_witness :
    (0 : Int) ≤ 2 ∧ ∃ s1, setCapacity 2 scenarioB = .ok s1 ∧ getCapacity s1 = 2 ∧
      (∀ i : Nat, (i : Int) < min (getCapacity scenarioB) 2 → s1.value[i]? = scenarioB.value[i]?) ∧
      (∀ i : Nat, min (getCapacity scenarioB) 2 ≤ (i : Int) → (i : Int) < 2 →
        s1.value[i]? = some none) :=
  ⟨by decide, (setCapacity_spec 2 scenarioB (by decide)).2 ⟨by decide, rfl⟩⟩

/-- C6 at a failing input. The container with capacity 3 and length 0 that
`append(3)` leaves: `setCapacity(5)` returns with length 3, the old capacity,
where `min(old length, 5)` is 0. -/
theorem setCapacity_length_failing :
    append sampleExternal 3 sampleEmpty = .ok (3, sampleThree) ∧
    sampleThree.length = 0 ∧
    ∃ s1, setCapacity 5 sampleThree = .ok s1 ∧ s1.length = 3 ∧
      s1.length ≠ min sampleThree.length 5 := by
  refine ⟨rfl, by decide, _, rfl, by decide, by decide⟩

/-- C8 at a failing input. On the container with capacity 3 and length 0 that
`append(3)` leaves, `append(2)` returns 5 and the length is 3. -/
theorem append_length_failing :
    append sampleExternal 3 sampleEmpty = .ok (3, sampleThree) ∧
    sampleThree.length = 0 ∧
    ∃ s1, append sampleExternal 2 sampleThree = .ok (5, s1) ∧ s1.length = 3 := by
  refine ⟨rfl, by decide, _, rfl, by decide⟩

/-- C10 at a failing input. With length 5, `get(0, -5)` returns -5, where
`max(0, min(-5, 5 - 0))` is 0. -/
theorem get_negative_len_failing :
    scenarioB.length = 5 ∧ (get 0 (-5) scenarioB).1 = -5 ∧
    max 0 (min (-5) (scenarioB.length - 0)) = 0 := by
  decide

theorem writeAt_length {a : List PVStructurePtr} {i : Int} {p : PVStructurePtr}
    {v : List PVStructurePtr} (h : writeAt a i p = .ok v) : v.length = a.length := by
  unfold writeAt at h
  split at h
  · cases h; simp
  · cases h

theorem readAt_error {a : List PVStructurePtr} {i : Int} {f : Failure}
    (h : readAt a i = .error f) : f = .outOfBounds := by
  unfold readAt at h
  split at h
  · cases h
  · cases h; rfl

theorem writeAt_error {a : List PVStructurePtr} {i : Int} {p : PVStructurePtr} {f : Failure}
    (h : writeAt a i p = .error f) : f = .outOfBounds := by
  unfold writeAt at h
  split at h
  · cases h
  · cases h; rfl

theorem readAt_inBounds {a : List PVStructurePtr} {i : Int} {p : PVStructurePtr}
    (h : readAt a i = .ok p) : 0 ≤ i ∧ i < a.length := by
  unfold readAt at h
  split at h
  · assumption
  · cases h

theorem removeLoop_frame (n : Nat) : ∀ (i : Int) (s s1 : BasePVStructureArray),
    removeLoop i n s = .ok s1 →
    s1.value.length = s.value.length ∧ s1.length = s.length := by
  induction n with
  | zero =>
    intro i s s1 h
    unfold removeLoop at h
    cases h
    exact ⟨rfl, rfl⟩
  | succ n ih =>
    intro i s s1 h
    unfold removeLoop at h
    cases hr : readAt s.value i with
    | error f => rw [hr] at h; cases h
    | ok p =>
      rw [hr] at h
      cases p with
      | none => exact ih _ _ _ h
      | some e =>
        simp only [] at h
        cases hw : writeAt s.value i none with
        | error f => rw [hw] at h; cases h
        | ok v =>
          rw [hw] at h
          obtain ⟨h1, h2⟩ := ih _ _ _ h
          exact ⟨by rw [h1]; exact writeAt_length hw, h2⟩

theorem remove_frame {offset number : Int} {s s1 : BasePVStructureArray} {r : Bool}
    (h : remove offset number s = .ok (r, s1)) :
    s1.value.length = s.value.length ∧ s1.length = s.length := by
  unfold remove at h
  simp only [] at h
  split at h
  · cases h; exact ⟨rfl, rfl⟩
  · cases hl : removeLoop offset number.toNat s with
    | error f => rw [hl] at h; cases h
    | ok s2 =>
      rw [hl] at h
      cases h
      exact removeLoop_frame _ _ _ _ hl

theorem setCapacity_negative (n : Int) (s : BasePVStructureArray) (hn : n < 0)
    (hm : s.capacityMutable = true) : setCapacity n s = .error .badArrayNewLength := by
  have hc : 0 ≤ getCapacity s := by simp [getCapacity]
  unfold setCapacity
  rw [if_neg (by omega)]
  simp only [isCapacityMutable, hm, Bool.not_true, Bool.false_eq_true, if_false]
  rw [if_pos (by omega), remove_beyond s _ (by omega)]
  simp only []
  rw [if_pos hn]

/-- The three ways `setCapacity` returns. -/
theorem setCapacity_ok_cases {n : Int} {s s1 : BasePVStructureArray}
    (h : setCapacity n s = .ok s1) :
    s1 = s ∨ s1 = message .notCapacityMutable s ∨
    (0 ≤ n ∧ getCapacity s ≠ n ∧ s.capacityMutable = true ∧
      s1 = { s with
        value := s.value.take (min (getCapacity s) n).toNat ++
          List.replicate (n - min (getCapacity s) n).toNat none,
        length := min (getCapacity s) n }) := by
  by_cases he : getCapacity s = n
  · rw [setCapacity_same n s he] at h
    cases h; exact Or.inl rfl
  · rcases Bool.eq_false_or_eq_true s.capacityMutable with hm | hm
    · by_cases hn : 0 ≤ n
      · rw [setCapacity_changes n s he hm hn] at h
        cases h
        exact Or.inr (Or.inr ⟨hn, he, hm, rfl⟩)
      · rw [setCapacity_negative n s (by omega) hm] at h
        cases h
    · rw [setCapacity_rejected n s he hm] at h
      cases h; exact Or.inr (Or.inl rfl)

/-- The invariant of the claim. -/
theorem setCapacity_invariant {n : Int} {s s1 : BasePVStructureArray}
    (h : setCapacity n s = .ok s1) (hi : 0 ≤ s.length ∧ s.length ≤ getCapacity s) :
    0 ≤ s1.length ∧ s1.length ≤ getCapacity s1 := by
  rcases setCapacity_ok_cases h with h1 | h1 | ⟨hn, _, _, h1⟩
  · rw [h1]; exact hi
  · rw [h1]; exact hi
  · rw [h1]
    simp only [getCapacity, List.length_append, List.length_take, List.length_replicate]
    simp only [getCapacity] at hi
    omega

theorem appendLoop_length (x : External) (st : StructureConstPtr) (n : Nat) :
    ∀ (i : Int) (v v1 : List PVStructurePtr),
    appendLoop x st i n v = .ok v1 → v1.length = v.length := by
  induction n with
  | zero =>
    intro i v v1 h
    unfold appendLoop at h
    cases h; rfl
  | succ n ih =>
    intro i v v1 h
    unfold appendLoop at h
    cases hw : writeAt v i (some (createPVStructure x st)) with
    | error f => rw [hw] at h; cases h
    | ok v2 =>
      rw [hw] at h
      rw [ih _ _ _ h]
      exact writeAt_length hw

theorem append_invariant {x : External} {k r : Int} {s s1 : BasePVStructureArray}
    (h : append x k s = .ok (r, s1)) (hi : 0 ≤ s.length ∧ s.length ≤ getCapacity s) :
    0 ≤ s1.length ∧ s1.length ≤ getCapacity s1 := by
  unfold append at h
  simp only [] at h
  cases hs : setCapacity (getCapacity s + k) s with
  | error f => rw [hs] at h; cases h
  | ok s2 =>
    rw [hs] at h
    simp only [] at h
    have h2 := setCapacity_invariant hs hi
    cases ha : appendLoop x s2.structureArray.getStructure (getCapacity s)
        (getCapacity s + k - getCapacity s).toNat s2.value with
    | error f => rw [ha] at h; cases h
    | ok v =>
      rw [ha] at h
      cases h
      have hl := appendLoop_length _ _ _ _ _ _ ha
      simp only [getCapacity] at h2 ⊢
      rw [hl]
      exact h2

theorem compressLoop_length (len : Nat) (n : Nat) : ∀ (i : Nat) (v : List PVStructurePtr) (c : Int),
    (compressLoop len i n v c).1.length = v.length := by
  induction n with
  | zero => intro i v c; rfl
  | succ n ih =>
    intro i v c
    unfold compressLoop
    split
    · exact ih _ _ _
    · simp only []
      split
      · rw [ih]; simp
      · rfl

theorem compress_invariant {s s1 : BasePVStructureArray}
    (h : compress s = .ok s1) (hi : 0 ≤ s.length ∧ s.length ≤ getCapacity s) :
    0 ≤ s1.length ∧ s1.length ≤ getCapacity s1 := by
  unfold compress at h
  simp only [] at h
  refine setCapacity_invariant h ?_
  simp only [getCapacity, compressLoop_length]
  exact hi

/-- The copy loop of `put` keeps the size of the slot table and the length,
whether it ends normally or by the exception. -/
theorem putLoop_frame (st : StructureConstPtr) (offset : Int) (from_ : List PVStructurePtr)
    (fromOffset : Int) (n : Nat) : ∀ (i : Nat) (s s1 : BasePVStructureArray),
    (putLoop st offset from_ fromOffset i n s = .ok s1 ∨
      putLoop st offset from_ fromOffset i n s = .error (.invalidArgument s1)) →
    s1.value.length = s.value.length ∧ s1.length = s.length := by
  induction n with
  | zero =>
    intro i s s1 h
    unfold putLoop at h
    rcases h with h | h
    · cases h; exact ⟨rfl, rfl⟩
    · cases h
  | succ n ih =>
    intro i s s1 h
    unfold putLoop at h
    cases hr : readAt s.value (↑i + offset) with
    | error f =>
      rw [hr] at h
      have := readAt_error hr
      subst this
      rcases h with h | h <;> cases h
    | ok old =>
      rw [hr] at h
      simp only [] at h
      have hv : (deletePtr old s).value = s.value := by cases old <;> rfl
      have hl : (deletePtr old s).length = s.length := by cases old <;> rfl
      generalize deletePtr old s = s2 at h hv hl
      cases hf : readAt from_ (↑i + fromOffset) with
      | error f =>
        rw [hf] at h
        have := readAt_error hf
        subst this
        rcases h with h | h <;> cases h
      | ok frompv =>
        rw [hf] at h
        cases frompv with
        | none =>
          simp only [] at h
          cases hw : writeAt s2.value (↑i + offset) none with
          | error f =>
            rw [hw] at h
            have := writeAt_error hw
            subst this
            rcases h with h | h <;> cases h
          | ok v =>
            rw [hw] at h
            obtain ⟨h1, h2⟩ := ih _ _ _ h
            refine ⟨?_, by rw [h2]; exact hl⟩
            rw [h1]
            simp only []
            rw [writeAt_length hw, hv]
        | some pv =>
          simp only [] at h
          split at h
          · rcases h with h | h
            · cases h
            · cases h
              exact ⟨by rw [hv], hl⟩
          · cases hw : writeAt s2.value (↑i + offset) (some pv) with
            | error f =>
              rw [hw] at h
              have := writeAt_error hw
              subst this
              rcases h with h | h <;> cases h
            | ok v =>
              rw [hw] at h
              obtain ⟨h1, h2⟩ := ih _ _ _ h
              refine ⟨?_, by rw [h2]; exact hl⟩
              rw [h1]
              simp only []
              rw [writeAt_length hw, hv]

theorem setCapacity_error {n : Int} {s : BasePVStructureArray} {f : Failure}
    (h : setCapacity n s = .error f) : f = .badArrayNewLength := by
  by_cases he : getCapacity s = n
  · rw [setCapacity_same n s he] at h
    cases h
  · rcases Bool.eq_false_or_eq_true s.capacityMutable with hm | hm
    · by_cases hn : 0 ≤ n
      · rw [setCapacity_changes n s he hm hn] at h
        cases h
      · rw [setCapacity_negative n s (by omega) hm] at h
        cases h; rfl
    · rw [setCapacity_rejected n s he hm] at h
      cases h

theorem putCopy_frame {offset len : Int} {from_ : List PVStructurePtr} {fromOffset : Int}
    {s s1 : BasePVStructureArray}
    (h : (∃ r, putCopy offset len from_ fromOffset s = .ok (r, s1)) ∨
      putCopy offset len from_ fromOffset s = .error (.invalidArgument s1)) :
    s1.value.length = s.value.length ∧ s1.length = s.length := by
  unfold putCopy at h
  simp only [] at h
  cases hl : putLoop s.structureArray.getStructure offset from_ fromOffset 0 len.toNat s with
  | error f =>
    rw [hl] at h
    rcases h with ⟨r, h⟩ | h
    · cases h
    · cases h
      exact putLoop_frame _ _ _ _ _ _ _ _ (Or.inr hl)
  | ok s2 =>
    rw [hl] at h
    rcases h with ⟨r, h⟩ | h
    · cases h
      have h5 := putLoop_frame _ _ _ _ _ _ s s2 (Or.inl hl)
      exact h5
    · cases h

theorem put_invariant {offset len : Int} {from_ : PVStructurePtrArray} {fromOffset : Int}
    {s s1 : BasePVStructureArray}
    (h : (∃ r, put offset len from_ fromOffset s = .ok (r, s1)) ∨
      put offset len from_ fromOffset s = .error (.invalidArgument s1))
    (hi : 0 ≤ s.length ∧ s.length ≤ getCapacity s) :
    0 ≤ s1.length ∧ s1.length ≤ getCapacity s1 := by
  unfold put at h
  split at h
  · rcases h with ⟨r, h⟩ | h
    · cases h; exact hi
    · cases h
  · cases from_ with
    | value =>
      simp only [] at h
      rcases h with ⟨r, h⟩ | h
      · cases h; exact hi
      · cases h
    | array a =>
      simp only [] at h
      split at h
      · rcases h with ⟨r, h⟩ | h
        · cases h; exact hi
        · cases h
      · split at h
        · split at h
          · cases hs : setCapacity (offset + len) s with
            | error f =>
              rw [hs] at h
              rcases h with ⟨r, h⟩ | h
              · cases h
              · simp only [] at h
                have := setCapacity_error hs
                subst this
                cases h
            | ok s2 =>
              rw [hs] at h
              simp only [] at h
              have h2 := setCapacity_invariant hs hi
              split at h
              · rcases h with ⟨r, h⟩ | h
                · cases h; exact h2
                · cases h
              · obtain ⟨h3, h4⟩ := putCopy_frame h
                simp only [getCapacity, getLength, setLength] at *
                omega
          · obtain ⟨h3, h4⟩ := putCopy_frame h
            simp only [getCapacity, getLength, setLength] at *
            omega
        · obtain ⟨h3, h4⟩ := putCopy_frame h
          simp only [getCapacity, getLength, setLength] at *
          omega

/-- A `deserialize` loop that ends normally has stayed inside the slot table,
whose size it keeps. -/
theorem deserializeLoop_frame (x : External) (n : Nat) :
    ∀ (i : Nat) (s : BasePVStructureArray) (input : List Int) (s1 : BasePVStructureArray)
      (rest : List Int),
    deserializeLoop x i n s input = .ok (s1, rest) →
    s1.value.length = s.value.length ∧ (0 < n → i + n ≤ s.value.length) := by
  induction n with
  | zero =>
    intro i s input s1 rest h
    unfold deserializeLoop at h
    cases h
    exact ⟨rfl, by omega⟩
  | succ n ih =>
    intro i s input s1 rest h
    unfold deserializeLoop at h
    cases input with
    | nil => cases h
    | cons temp rest0 =>
      simp only [] at h
      cases hr : readAt s.value i with
      | error f => rw [hr] at h; cases h
      | ok p =>
        rw [hr] at h
        simp only [] at h
        have hb := readAt_inBounds hr
        split at h
        · cases p with
          | none =>
            simp only [] at h
            obtain ⟨h1, h2⟩ := ih _ _ _ _ _ h
            exact ⟨h1, by omega⟩
          | some e =>
            simp only [] at h
            cases hw : writeAt s.value i none with
            | error f => rw [hw] at h; cases h
            | ok v =>
              rw [hw] at h
              simp only [] at h
              obtain ⟨h1, h2⟩ := ih _ _ _ _ _ h
              simp only [] at h1 h2
              rw [writeAt_length hw] at h1 h2
              exact ⟨h1, by omega⟩
        · generalize orCreate x s.structureArray.getStructure p = e at h
          cases hd : x.decodePayload e rest0 with
          | none => rw [hd] at h; cases h
          | some pr =>
            rw [hd] at h
            obtain ⟨payload, rest1⟩ := pr
            simp only [] at h
            cases hw : writeAt s.value i (some { e with payload := payload }) with
            | error f => rw [hw] at h; cases h
            | ok v =>
              rw [hw] at h
              simp only [] at h
              obtain ⟨h1, h2⟩ := ih _ _ _ _ _ h
              simp only [] at h1 h2
              rw [writeAt_length hw] at h1 h2
              exact ⟨h1, by omega⟩

theorem deserialize_invariant {x : External} {input rest : List Int}
    {s s1 : BasePVStructureArray}
    (h : deserialize x input s = .ok (s1, rest))
    (hi : 0 ≤ s.length ∧ s.length ≤ getCapacity s) :
    0 ≤ s1.length ∧ s1.length ≤ getCapacity s1 := by
  unfold deserialize at h
  cases hrs : x.readSize input with
  | none => rw [hrs] at h; cases h
  | some pr =>
    rw [hrs] at h
    obtain ⟨size, rest0⟩ := pr
    simp only [] at h
    split at h
    · cases hs : (if size > getCapacity s then setCapacity size s else .ok s) with
      | error f => rw [hs] at h; cases h
      | ok s2 =>
        rw [hs] at h
        simp only [] at h
        cases hl : deserializeLoop x 0 size.toNat s2 rest0 with
        | error f => rw [hl] at h; cases h
        | ok pr2 =>
          rw [hl] at h
          obtain ⟨s3, rest1⟩ := pr2
          simp only [] at h
          cases h
          obtain ⟨h1, h2⟩ := deserializeLoop_frame _ _ _ _ _ _ _ hl
          simp only [postPut, setLength, getCapacity]
          omega
    · cases h
      exact hi

/-- C1. In every state reachable from a freshly created container by calls
of `append`, `remove`, `compress`, `setCapacity`, `put` and `deserialize`,
with either setting of the flags, `0 <= length <= capacity`. -/
theorem length_le_capacity (x : External) (s : BasePVStructureArray) (h : Reachable x s) :
    0 ≤ getLength s ∧ getLength s ≤ getCapacity s := by
  simp only [getLength]
  induction h with
  | construct sa cm im => simp [construct, getCapacity]
  | setCapacityMutable b _ ih => exact ih
  | setImmutable b _ ih => exact ih
  | append k r _ h ih => exact append_invariant h ih
  | remove o n r _ h ih =>
    obtain ⟨h1, h2⟩ := remove_frame h
    simp only [getCapacity] at ih ⊢
    omega
  | compress _ h ih => exact compress_invariant h ih
  | setCapacity n _ h ih => exact setCapacity_invariant h ih
  | putReturns o l f fo r _ h ih => exact put_invariant (Or.inl ⟨r, h⟩) ih
  | putThrows o l f fo _ h ih => exact put_invariant (Or.inr h) ih
  | deserialize input rest _ h ih => exact deserialize_invariant h ih

theorem sampleThree_reachable : Reachable sampleExternal sampleThree :=
  Reachable.append 3 3 (Reachable.construct { getStructure := 7 } true false) rfl

/-- C1 at the state `append(3)` leaves. -/
theorem length_le_capacity_witness :
    Reachable sampleExternal sampleThree ∧
    0 ≤ getLength sampleThree ∧ getLength sampleThree ≤ getCapacity sampleThree :=
  ⟨sampleThree_reachable, length_le_capacity sampleExternal sampleThree sampleThree_reachable⟩

/-! ## Compaction -/

theorem getD_append_length (P : List PVStructurePtr) (p : PVStructurePtr)
    (T : List PVStructurePtr) : (P ++ p :: T).getD P.length none = p := by
  rw [List.getD_eq_getElem?_getD, List.getElem?_append_right (le_refl _)]
  simp

theorem set_append_length (P : List PVStructurePtr) (p q : PVStructurePtr)
    (T : List PVStructurePtr) : (P ++ p :: T).set P.length q = P ++ q :: T := by
  induction P with
  | nil => rfl
  | cons a P ih => simp [ih]

/-- The inner scan finds nothing in a run of empty slots. -/
theorem findNotNull_none (S : List PVStructurePtr) :
    ∀ P : List PVStructurePtr, (∀ p ∈ S, p = none) →
      findNotNull (P ++ S) P.length S.length = 0 := by
  induction S with
  | nil => intro P _; rfl
  | cons p S ih =>
    intro P h
    have hp : p = none := h p (List.mem_cons_self _ _)
    subst hp
    simp only [List.length_cons]
    unfold findNotNull
    rw [getD_append_length]
    simp only [Option.isSome_none, Bool.false_eq_true, if_false]
    have h2 := ih (P ++ [none]) (fun q hq => h q (List.mem_cons_of_mem _ hq))
    simp only [List.append_assoc, List.singleton_append, List.length_append,
      List.length_singleton] at h2
    exact h2

/-- The inner scan stops at the first occupied slot. -/
theorem findNotNull_some (k : Nat) (e : PVStructure) (B : List PVStructurePtr) :
    ∀ P : List PVStructurePtr,
      findNotNull (P ++ (List.replicate k none ++ some e :: B)) P.length (k + 1 + B.length) =
        P.length + k := by
  induction k with
  | zero =>
    intro P
    simp only [List.replicate_zero, List.nil_append, Nat.zero_add, Nat.add_zero]
    rw [Nat.add_comm 1 B.length]
    unfold findNotNull
    rw [getD_append_length]
    simp
  | succ k ih =>
    intro P
    have h1 : k + 1 + 1 + B.length = (k + 1 + B.length) + 1 := by omega
    rw [h1]
    unfold findNotNull
    simp only [List.replicate_succ, List.cons_append]
    rw [getD_append_length]
    simp only [Option.isSome_none, Bool.false_eq_true, if_false]
    have h2 := ih (P ++ [none])
    simp only [List.append_assoc, List.singleton_append, List.length_append,
      List.length_singleton] at h2
    rw [h2]
    omega

theorem all_none_or_split (S : List PVStructurePtr) :
    (∀ p ∈ S, p = none) ∨
    ∃ (k : Nat) (e : PVStructure) (B : List PVStructurePtr),
      S = List.replicate k none ++ some e :: B := by
  induction S with
  | nil => left; intro p hp; cases hp
  | cons p S ih =>
    cases p with
    | some e => right; exact ⟨0, e, S, rfl⟩
    | none =>
      rcases ih with h | ⟨k, e, B, h⟩
      · left
        intro q hq
        rcases List.mem_cons.1 hq with h1 | h1
        · exact h1
        · exact h q h1
      · right
        exact ⟨k + 1, e, B, by rw [h]; rfl⟩

theorem occupied_cons_some (e : PVStructure) (S : List PVStructurePtr) :
    occupied (some e :: S) = some e :: occupied S := by
  simp [occupied]

theorem occupied_cons_none (S : List PVStructurePtr) :
    occupied (none :: S) = occupied S := by
  simp [occupied]

theorem occupied_replicate_none (k : Nat) (S : List PVStructurePtr) :
    occupied (List.replicate k none ++ S) = occupied S := by
  induction k with
  | zero => rfl
  | succ k ih => rw [List.replicate_succ, List.cons_append, occupied_cons_none, ih]

theorem occupied_all_none (S : List PVStructurePtr) (h : ∀ p ∈ S, p = none) :
    occupied S = [] := by
  induction S with
  | nil => rfl
  | cons p S ih =>
    have hp : p = none := h p (List.mem_cons_self _ _)
    subst hp
    rw [occupied_cons_none]
    exact ih (fun q hq => h q (List.mem_cons_of_mem _ hq))

theorem occupied_length_le (S : List PVStructurePtr) : (occupied S).length ≤ S.length := by
  unfold occupied
  exact List.length_filter_le _ _

theorem occupied_no_empty (S : List PVStructurePtr) : ∀ p ∈ occupied S, p ≠ none := by
  intro p hp
  unfold occupied at hp
  have := (List.mem_filter.1 hp).2
  intro h
  subst h
  simp at this

/-- The outer loop of `compress` on a table `P ++ S` whose first `P.length`
slots are done: the occupied slots of `S` move up, in order, and are counted. -/
theorem compressLoop_spec (n : Nat) : ∀ (P S : List PVStructurePtr) (c : Int),
    S.length = n →
    compressLoop (P.length + n) P.length n (P ++ S) c =
      (P ++ occupied S ++ List.replicate (n - (occupied S).length) none,
        c + ((occupied S).length : Int)) := by
  induction n with
  | zero =>
    intro P S c hS
    have : S = [] := List.length_eq_zero.1 hS
    subst this
    simp [compressLoop, occupied]
  | succ n ih =>
    intro P S c hS
    cases S with
    | nil => cases hS
    | cons p S =>
      have hS1 : S.length = n := by simpa using hS
      unfold compressLoop
      rw [getD_append_length]
      cases p with
      | some e =>
        simp only [Option.isSome_some, if_true]
        have h := ih (P ++ [some e]) S (c + 1) hS1
        simp only [List.length_append, List.length_singleton, List.append_assoc,
          List.singleton_append] at h
        have e1 : P.length + (n + 1) = P.length + 1 + n := by omega
        rw [e1, h, occupied_cons_some]
        apply Prod.ext
        · simp
        · simp only [List.length_cons]
          push_cast
          ring
      | none =>
        simp only [Option.isSome_none, Bool.false_eq_true, if_false]
        have e2 : P.length + (n + 1) - (P.length + 1) = n := by omega
        rw [e2]
        rcases all_none_or_split S with hall | ⟨k, e, B, hsplit⟩
        · have h0 := findNotNull_none S (P ++ [none]) hall
          simp only [List.length_append, List.length_singleton, List.append_assoc,
            List.singleton_append] at h0
          rw [hS1] at h0
          rw [h0]
          simp only [ne_eq, not_true_eq_false, if_false]
          rw [occupied_cons_none, occupied_all_none S hall]
          have hrep : S = List.replicate n none :=
            List.eq_replicate_iff.2 ⟨hS1, hall⟩
          simp only [List.length_nil, Nat.sub_zero, List.append_nil, Nat.cast_zero, add_zero,
            Prod.mk.injEq, and_true]
          rw [List.replicate_succ]
          rw [← hrep]
        · subst hsplit
          have hn : n = k + 1 + B.length := by
            rw [← hS1]; simp; omega
          subst hn
          have h1 := findNotNull_some k e B (P ++ [none])
          simp only [List.length_append, List.length_singleton, List.append_assoc,
            List.singleton_append] at h1
          rw [h1]
          have hne : P.length + 1 + k ≠ 0 := by omega
          rw [if_pos hne]
          have hv : P ++ none :: (List.replicate k none ++ some e :: B) =
              (P ++ none :: List.replicate k none) ++ some e :: B := by simp
          have hlen : (P ++ none :: List.replicate k none).length = P.length + 1 + k := by
            simp; omega
          have hget : (P ++ none :: (List.replicate k none ++ some e :: B)).getD
              (P.length + 1 + k) none = some e := by
            rw [hv, ← hlen, getD_append_length]
          rw [hget, set_append_length]
          have hv2 : P ++ some e :: (List.replicate k none ++ some e :: B) =
              (P ++ some e :: List.replicate k none) ++ some e :: B := by simp
          have hlen2 : (P ++ some e :: List.replicate k none).length = P.length + 1 + k := by
            simp; omega
          rw [hv2, ← hlen2, set_append_length]
          have h := ih (P ++ [some e]) (List.replicate k none ++ none :: B) (c + 1)
            (by simp; omega)
          simp only [List.length_append, List.length_singleton, List.append_assoc,
            List.singleton_append] at h
          have e1 : P.length + (k + 1 + B.length + 1) = P.length + 1 + (k + 1 + B.length) := by
            omega
          have hv3 : (P ++ some e :: List.replicate k none) ++ none :: B =
              P ++ some e :: (List.replicate k none ++ none :: B) := by simp
          rw [e1, hv3, h]
          rw [occupied_cons_none, occupied_replicate_none, occupied_replicate_none,
            occupied_cons_none, occupied_cons_some]
          apply Prod.ext
          · simp
          · simp only [List.length_cons]
            push_cast
            ring

/-- The slot table and the count `compress` hands to `setCapacity`. -/
theorem compressLoop_whole (v : List PVStructurePtr) :
    compressLoop v.length 0 v.length v 0 =
      (occupied v ++ List.replicate (v.length - (occupied v).length) none,
        ((occupied v).length : Int)) := by
  have h := compressLoop_spec v.length [] v 0 rfl
  simp only [List.length_nil, Nat.zero_add, List.nil_append, zero_add] at h
  exact h

/-- C2. On a container whose capacity is mutable, `compress()` leaves as slot
table exactly the occupied slots of the old table, in their order (so no slot
is empty and no element is created, released or duplicated), and the new
capacity is their number. -/
theorem compress_spec (s : BasePVStructureArray) (hm : s.capacityMutable = true) :
    ∃ s1, compress s = .ok s1 ∧ s1.value = occupied s.value ∧
      (∀ p ∈ s1.value, p ≠ none) ∧
      getCapacity s1 = ((occupied s.value).length : Int) ∧
      s1.deleted = s.deleted := by
  have hle := occupied_length_le s.value
  have hloop : compressLoop (getCapacity s).toNat 0 (getCapacity s).toNat s.value 0 =
      (occupied s.value ++ List.replicate (s.value.length - (occupied s.value).length) none,
        ((occupied s.value).length : Int)) := by
    have : (getCapacity s).toNat = s.value.length := by simp [getCapacity]
    rw [this]
    exact compressLoop_whole s.value
  unfold compress
  simp only []
  rw [hloop]
  simp only []
  have hwl : (occupied s.value ++
      List.replicate (s.value.length - (occupied s.value).length) none).length =
      s.value.length := by
    simp only [List.length_append, List.length_replicate]
    omega
  have hwt : List.take (occupied s.value).length (occupied s.value ++
      List.replicate (s.value.length - (occupied s.value).length) none) = occupied s.value := by
    simp
  by_cases he : (occupied s.value).length = s.value.length
  · have hw : occupied s.value ++
        List.replicate (s.value.length - (occupied s.value).length) none = occupied s.value := by
      simp [he]
    rw [hw]
    refine ⟨_, setCapacity_same _ _ ?_, rfl, occupied_no_empty s.value, ?_, rfl⟩
    · simp only [getCapacity]
    · simp only [getCapacity]
  · generalize occupied s.value ++
        List.replicate (s.value.length - (occupied s.value).length) none = w at hwl hwt
    have hne : getCapacity { s with value := w } ≠ ((occupied s.value).length : Int) := by
      simp only [getCapacity]
      omega
    rw [setCapacity_changes _ _ hne hm (by omega)]
    have hmin : min (getCapacity { s with value := w })
        ((occupied s.value).length : Int) = ((occupied s.value).length : Int) := by
      simp only [getCapacity]
      omega
    rw [hmin]
    have hval : List.take ((occupied s.value).length : Int).toNat w ++
        List.replicate (((occupied s.value).length : Int) - ((occupied s.value).length : Int)).toNat
          none = occupied s.value := by
      simp [hwt]
    refine ⟨_, rfl, ?_, ?_, ?_, rfl⟩
    · simp only []
      exact hval
    · simp only []
      rw [hval]
      exact occupied_no_empty s.value
    · simp only [getCapacity]
      rw [hval]

/-- C2 at Scenario B: the five slots with those at 1 and 3 empty become the
three former elements 0, 2, 4. -/
theorem compress_spec_witness :
    scenarioB.capacityMutable = true ∧
    occupied scenarioB.value =
      [some (sampleElement 0), some (sampleElement 2), some (sampleElement 4)] ∧
    ∃ s1, compress scenarioB = .ok s1 ∧ s1.value = occupied scenarioB.value ∧
      (∀ p ∈ s1.value, p ≠ none) ∧
      getCapacity s1 = ((occupied scenarioB.value).length : Int) ∧
      s1.deleted = scenarioB.deleted :=
  ⟨rfl, by decide, compress_spec scenarioB rfl⟩

/-! ## `put` -/

theorem deletePtr_value (p : PVStructurePtr) (s : BasePVStructureArray) :
    (deletePtr p s).value = s.value := by cases p <;> rfl

theorem deletePtr_length (p : PVStructurePtr) (s : BasePVStructureArray) :
    (deletePtr p s).length = s.length := by cases p <;> rfl

theorem deletePtr_postPuts (p : PVStructurePtr) (s : BasePVStructureArray) :
    (deletePtr p s).postPuts = s.postPuts := by cases p <;> rfl

/-- The copy loop of `put` on a window inside the slot table, from a source
whose entries exist and are empty or of the element type: it ends normally and
the window holds the source entries. -/
theorem putLoop_spec (st : StructureConstPtr) (o : Nat) (a : List PVStructurePtr)
    (fromOffset : Int) (n : Nat) : ∀ (i : Nat) (s : BasePVStructureArray),
    o + i + n ≤ s.value.length →
    (∀ k : Nat, i ≤ k → k < i + n →
      ∃ p, readAt a ((k : Int) + fromOffset) = .ok p ∧
        ∀ e, p = some e → e.getStructure = st) →
    ∃ s1, putLoop st (o : Int) a fromOffset i n s = .ok s1 ∧
      s1.value.length = s.value.length ∧
      (∀ k : Nat, i ≤ k → k < i + n →
        readAt s1.value ((k : Int) + (o : Int)) = readAt a ((k : Int) + fromOffset)) ∧
      (∀ j : Nat, (j < o + i ∨ o + i + n ≤ j) → s1.value[j]? = s.value[j]?) ∧
      s1.length = s.length ∧ s1.postPuts = s.postPuts := by
  induction n with
  | zero =>
    intro i s _ _
    refine ⟨s, rfl, rfl, ?_, fun _ _ => rfl, rfl, rfl⟩
    intro k h1 h2
    omega
  | succ n ih =>
    intro i s hb hsrc
    have hidx : ((i : Int) + (o : Int)) = ((i + o : Nat) : Int) := by push_cast; rfl
    have hin : i + o < s.value.length := by omega
    obtain ⟨p, hp, hty⟩ := hsrc i (le_refl _) (by omega)
    have hstep : putLoop st (o : Int) a fromOffset i (n + 1) s =
        putLoop st (o : Int) a fromOffset (i + 1) n
          { deletePtr (s.value.getD (i + o) none) s with value := s.value.set (i + o) p } := by
      conv => lhs; unfold putLoop
      rw [hidx, readAt_ok _ _ hin]
      simp only []
      rw [hp]
      cases p with
      | none =>
        simp only []
        rw [deletePtr_value, writeAt_ok _ _ _ hin]
      | some pv =>
        simp only []
        rw [if_neg (by simp [hty pv rfl])]
        rw [deletePtr_value, writeAt_ok _ _ _ hin]
    rw [hstep]
    obtain ⟨s1, h1, h2, h3, h4, h5, h6⟩ := ih (i + 1)
      { deletePtr (s.value.getD (i + o) none) s with value := s.value.set (i + o) p }
      (by simp only [List.length_set]; omega)
      (fun k hk1 hk2 => hsrc k (by omega) (by omega))
    simp only [List.length_set] at h2
    refine ⟨s1, h1, h2, ?_, ?_, ?_, ?_⟩
    · intro k hk1 hk2
      by_cases hki : k = i
      · subst hki
        rw [hp, hidx]
        have hin1 : k + o < s1.value.length := by omega
        rw [readAt_ok _ _ hin1]
        have := h4 (k + o) (Or.inl (by omega))
        simp only [] at this
        rw [getElem?_set_slot _ _ _ _ hin, if_pos rfl] at this
        rw [List.getD_eq_getElem?_getD, this]
        rfl
      · exact h3 k (by omega) (by omega)
    · intro j hj
      have := h4 j (by omega)
      simp only [] at this
      rw [this, getElem?_set_slot _ _ _ _ hin, if_neg (by omega)]
    · rw [h5]
      simp only []
      exact deletePtr_length _ _
    · rw [h6]
      simp only []
      exact deletePtr_postPuts _ _

/-- The end of `put` on a window inside the slot table. -/
theorem putCopy_spec (st : StructureConstPtr) (o c : Nat) (a : List PVStructurePtr)
    (fromOffset : Int) (s : BasePVStructureArray)
    (hst : s.structureArray.getStructure = st)
    (hb : o + c ≤ s.value.length)
    (hsrc : ∀ k : Nat, k < c →
      ∃ p, readAt a ((k : Int) + fromOffset) = .ok p ∧
        ∀ e, p = some e → e.getStructure = st) :
    ∃ s1, putCopy (o : Int) (c : Int) a fromOffset s = .ok ((c : Int), s1) ∧
      s1.value.length = s.value.length ∧
      (∀ k : Nat, k < c →
        readAt s1.value ((k : Int) + (o : Int)) = readAt a ((k : Int) + fromOffset)) ∧
      (∀ j : Nat, (j < o ∨ o + c ≤ j) → s1.value[j]? = s.value[j]?) ∧
      s1.length = s.length ∧ s1.postPuts = s.postPuts + 1 := by
  obtain ⟨s1, h1, h2, h3, h4, h5, h6⟩ := putLoop_spec st o a fromOffset c 0 s (by omega)
    (fun k _ hk => hsrc k (by omega))
  refine ⟨postPut s1, ?_, h2, ?_, ?_, h5, ?_⟩
  · unfold putCopy
    simp only [Int.toNat_ofNat, hst, h1]
  · intro k hk
    exact h3 k (Nat.zero_le _) (by omega)
  · intro j hj
    exact h4 j (by omega)
  · simp only [postPut, h6]

/-- C4. `put(offset, len, from, fromOffset)` on a container that is not
immutable, with `offset >= 0`, `len >= 1`, a sum `offset + len` that is
representable in `int` (at most 2147483647) and a source other than the own slot
table whose `len` entries exist and are empty or of the element type: it
returns `L`, which is `len` when `offset+len <= capacity` or the capacity is
mutable and `max(0, capacity - offset)` otherwise; slot `offset+i` is source
entry `fromOffset+i` for `i < L`; every other slot of the old table is
unchanged; for `L > 0` the length is `max(old length, offset+L)` (and the
notification is posted), for `L = 0` slots and length are unchanged. -/
theorem put_spec (offset len : Int) (a : List PVStructurePtr) (fromOffset : Int)
    (s : BasePVStructureArray) (L : Int)
    (him : isImmutable s = false)
    (hinv : 0 ≤ getLength s ∧ getLength s ≤ getCapacity s)
    (ho : 0 ≤ offset) (hlen : 1 ≤ len) (_hsum : offset + len ≤ 2147483647)
    (hsrc : ∀ i : Nat, (i : Int) < len →
      ∃ p, readAt a ((i : Int) + fromOffset) = .ok p ∧
        ∀ e, p = some e → e.getStructure = s.structureArray.getStructure)
    (hL : L = if offset + len ≤ getCapacity s ∨ isCapacityMutable s = true then len
      else max 0 (getCapacity s - offset)) :
    ∃ s1, put offset len (.array a) fromOffset s = .ok (L, s1) ∧
      (∀ i : Nat, (i : Int) < L →
        readAt s1.value ((i : Int) + offset) = readAt a ((i : Int) + fromOffset)) ∧
      (∀ j : Nat, (j : Int) < getCapacity s → ((j : Int) < offset ∨ offset + L ≤ (j : Int)) →
        s1.value[j]? = s.value[j]?) ∧
      (0 < L → getLength s1 = max (getLength s) (offset + L) ∧ s1.postPuts = s.postPuts + 1) ∧
      (L = 0 → s1.value = s.value ∧ getLength s1 = getLength s ∧ s1.postPuts = s.postPuts) := by
  obtain ⟨o, rfl⟩ := Int.eq_ofNat_of_zero_le ho
  obtain ⟨c, rfl⟩ := Int.eq_ofNat_of_zero_le (by omega : (0 : Int) ≤ len)
  simp only [getLength, getCapacity, isCapacityMutable, isImmutable] at him hinv hL
  have hnlt : ¬ ((c : Int) < 1) := by omega
  unfold put
  simp only [isImmutable, him, Bool.false_eq_true, if_false, if_neg hnlt, getLength, getCapacity]
  by_cases h1 : (o : Int) + (c : Int) > s.length
  · rw [if_pos h1]
    by_cases h2 : (o : Int) + (c : Int) > (s.value.length : Int)
    · rw [if_pos h2]
      have hne : getCapacity s ≠ (o : Int) + (c : Int) := by simp only [getCapacity]; omega
      rcases Bool.eq_false_or_eq_true s.capacityMutable with hm | hm
      · -- the capacity grows
        have hLc : L = (c : Int) := by rw [hL, if_pos (Or.inr hm)]
        subst hLc
        rw [setCapacity_changes _ _ hne hm (by omega)]
        simp only []
        have hmin : min (getCapacity s) ((o : Int) + (c : Int)) = getCapacity s := by
          simp only [getCapacity]; omega
        rw [hmin]
        have hA : (getCapacity s).toNat = s.value.length := by simp [getCapacity]
        have hB : ((o : Int) + (c : Int) - getCapacity s).toNat = o + c - s.value.length := by
          simp only [getCapacity]; omega
        rw [hA, hB, List.take_length]
        have hcap : ((s.value ++ List.replicate (o + c - s.value.length) none).length : Int) =
            (o : Int) + (c : Int) := by
          simp only [List.length_append, List.length_replicate]; omega
        rw [hcap]
        have hsub : (o : Int) + (c : Int) - (o : Int) = (c : Int) := by omega
        rw [hsub, if_neg (by omega)]
        obtain ⟨s1, e1, e2, e3, e4, e5, e6⟩ := putCopy_spec s.structureArray.getStructure o c a
          fromOffset
          (setLength ((o : Int) + (c : Int))
            { s with value := s.value ++ List.replicate (o + c - s.value.length) none,
                     length := getCapacity s })
          rfl (by simp only [setLength, List.length_append, List.length_replicate]; omega)
          (fun k hk => hsrc k (by omega))
        refine ⟨s1, e1, ?_, ?_, ?_, ?_⟩
        · intro i hi
          exact e3 i (by omega)
        · intro j hj1 hj2
          rw [e4 j (by omega)]
          simp only [setLength]
          rw [List.getElem?_append_left (by omega)]
        · intro _
          simp only [getLength, setLength] at e5 e6 ⊢
          exact ⟨by rw [e5]; omega, e6⟩
        · intro h0
          omega
      · -- the growth is rejected
        have hLc : L = max 0 ((s.value.length : Int) - (o : Int)) := by
          rw [hL, if_neg]
          rintro (h | h)
          · omega
          · rw [hm] at h; cases h
        rw [setCapacity_rejected _ _ hne hm]
        simp only [message]
        by_cases h3 : (s.value.length : Int) - (o : Int) ≤ 0
        · rw [if_pos h3]
          have hL0 : L = 0 := by rw [hLc]; omega
          subst hL0
          refine ⟨_, rfl, ?_, ?_, ?_, ?_⟩
          · intro i hi; omega
          · intro j _ _; rfl
          · intro h; omega
          · intro _; exact ⟨rfl, rfl, rfl⟩
        · rw [if_neg h3]
          have hd : ∃ d : Nat, (s.value.length : Int) - (o : Int) = (d : Int) ∧
              o + d = s.value.length ∧ 0 < d := ⟨s.value.length - o, by omega, by omega, by omega⟩
          obtain ⟨d, hd1, hd2, hd3⟩ := hd
          have hLd : L = (d : Int) := by rw [hLc, hd1]; omega
          subst hLd
          rw [hd1]
          obtain ⟨s1, e1, e2, e3, e4, e5, e6⟩ := putCopy_spec s.structureArray.getStructure o d a
            fromOffset
            (setLength (s.value.length : Int)
              { s with messages := s.messages ++ [MessageText.notCapacityMutable] })
            rfl (by simp only [setLength]; omega)
            (fun k hk => hsrc k (by omega))
          refine ⟨s1, e1, ?_, ?_, ?_, ?_⟩
          · intro i hi
            exact e3 i (by omega)
          · intro j hj1 hj2
            rw [e4 j (by omega)]
            simp only [setLength]
          · intro _
            simp only [getLength, setLength] at e5 e6 ⊢
            exact ⟨by rw [e5]; omega, e6⟩
          · intro h0
            omega
    · rw [if_neg h2]
      have hLc : L = (c : Int) := by rw [hL, if_pos (Or.inl (by omega))]
      subst hLc
      obtain ⟨s1, e1, e2, e3, e4, e5, e6⟩ := putCopy_spec s.structureArray.getStructure o c a
        fromOffset (setLength ((o : Int) + (c : Int)) s)
        rfl (by simp only [setLength]; omega)
        (fun k hk => hsrc k (by omega))
      refine ⟨s1, e1, ?_, ?_, ?_, ?_⟩
      · intro i hi
        exact e3 i (by omega)
      · intro j hj1 hj2
        rw [e4 j (by omega)]
        simp only [setLength]
      · intro _
        simp only [getLength, setLength] at e5 e6 ⊢
        exact ⟨by rw [e5]; omega, e6⟩
      · intro h0
        omega
  · rw [if_neg h1]
    have hLc : L = (c : Int) := by rw [hL, if_pos (Or.inl (by omega))]
    subst hLc
    obtain ⟨s1, e1, e2, e3, e4, e5, e6⟩ := putCopy_spec s.structureArray.getStructure o c a
      fromOffset s rfl (by omega) (fun k hk => hsrc k (by omega))
    refine ⟨s1, e1, ?_, ?_, ?_, ?_⟩
    · intro i hi
      exact e3 i (by omega)
    · intro j hj1 hj2
      exact e4 j (by omega)
    · intro _
      exact ⟨by rw [e5]; omega, e6⟩
    · intro h0
      omega

/-- C4 at Scenario B: `put(4, 2, ..)` grows the table to six slots. -/
theorem put_spec_witness :
    isImmutable scenarioB = false ∧
    (0 ≤ getLength scenarioB ∧ getLength scenarioB ≤ getCapacity scenarioB) ∧
    (4 : Int) + 2 ≤ 2147483647 ∧
    ∃ s1, put 4 2 (.array [some (sampleElement 9), none]) 0 scenarioB = .ok (2, s1) ∧
      (∀ i : Nat, (i : Int) < 2 →
        readAt s1.value ((i : Int) + 4) =
          readAt [some (sampleElement 9), none] ((i : Int) + 0)) ∧
      (∀ j : Nat, (j : Int) < getCapacity scenarioB →
        ((j : Int) < 4 ∨ (4 : Int) + 2 ≤ (j : Int)) → s1.value[j]? = scenarioB.value[j]?) ∧
      ((0 : Int) < 2 → getLength s1 = max (getLength scenarioB) (4 + 2) ∧
        s1.postPuts = scenarioB.postPuts + 1) ∧
      ((2 : Int) = 0 → s1.value = scenarioB.value ∧ getLength s1 = getLength scenarioB ∧
        s1.postPuts = scenarioB.postPuts) :=
  ⟨rfl, by decide, by decide,
    put_spec 4 2 [some (sampleElement 9), none] 0 scenarioB 2 rfl (by decide) (by decide)
      (by decide) (by decide)
      (by
        intro i hi
        have hi2 : i < 2 := by omega
        interval_cases i
        · exact ⟨some (sampleElement 9), rfl, by intro e he; cases he; rfl⟩
        · exact ⟨none, rfl, by intro e he; cases he⟩)
      (by decide)⟩

/-! ## The wire codec -/

theorem putByte_spec (byte : Int) (b : ByteBuffer) (h : 1 ≤ b.limit) :
    ∃ b1, putByte byte (if getRemaining b < 1 then flushSerializeBuffer b else b) = .ok b1 ∧
      written b1 = written b ++ [byte] ∧ b1.limit = b.limit := by
  by_cases hr : getRemaining b < 1
  · rw [if_pos hr]
    refine ⟨{ flushed := b.flushed ++ b.pending, pending := [byte], limit := b.limit }, ?_, ?_, rfl⟩
    · unfold putByte
      have : ¬ getRemaining (flushSerializeBuffer b) < 1 := by
        simp only [getRemaining, flushSerializeBuffer, List.length_nil]
        omega
      rw [if_neg this]
      rfl
    · simp [written]
  · rw [if_neg hr]
    refine ⟨{ b with pending := b.pending ++ [byte] }, ?_, ?_, rfl⟩
    · unfold putByte
      rw [if_neg hr]
    · simp [written]

/-- The external writers deliver their bytes unchanged. -/
theorem putBytes_spec (l : List Int) : ∀ (b : ByteBuffer), 1 ≤ b.limit →
    ∃ b1, putBytes l b = .ok b1 ∧ written b1 = written b ++ l ∧ b1.limit = b.limit := by
  induction l with
  | nil =>
    intro b _
    exact ⟨b, rfl, by simp, rfl⟩
  | cons byte l ih =>
    intro b h
    obtain ⟨b1, h1, h2, h3⟩ := putByte_spec byte b h
    obtain ⟨b2, h4, h5, h6⟩ := ih b1 (by omega)
    refine ⟨b2, ?_, ?_, by omega⟩
    · unfold putBytes
      rw [h1]
      exact h4
    · rw [h5, h2]
      simp

/-- The loop of `serialize` writes the wire form of the slots it walks. -/
theorem serializeLoop_spec (x : External) (value : List PVStructurePtr) (o : Nat) (n : Nat) :
    ∀ (i : Nat) (b : ByteBuffer), 1 ≤ b.limit → i + o + n ≤ value.length →
    ∃ b1, serializeLoop x value (o : Int) i n b = .ok b1 ∧
      written b1 = written b ++ wireEntries x ((value.drop (i + o)).take n) ∧
      b1.limit = b.limit := by
  induction n with
  | zero =>
    intro i b _ _
    exact ⟨b, rfl, by simp [wireEntries], rfl⟩
  | succ n ih =>
    intro i b hb hin
    have hidx : ((i : Int) + (o : Int)) = ((i + o : Nat) : Int) := by push_cast; rfl
    have hlt : i + o < value.length := by omega
    have hdrop : (value.drop (i + o)).take (n + 1) =
        value.getD (i + o) none :: (value.drop (i + 1 + o)).take n := by
      rw [List.drop_eq_getElem_cons hlt, List.take_succ_cons, List.getD_eq_getElem?_getD,
        List.getElem?_eq_getElem hlt]
      have : i + o + 1 = i + 1 + o := by omega
      rw [this]
      rfl
    unfold serializeLoop
    simp only []
    rw [hidx, readAt_ok _ _ hlt, hdrop]
    cases hp : value.getD (i + o) none with
    | none =>
      simp only []
      obtain ⟨b1, h1, h2, h3⟩ := putByte_spec 0 b hb
      rw [h1]
      simp only []
      obtain ⟨b2, h4, h5, h6⟩ := ih (i + 1) b1 (by omega) (by omega)
      refine ⟨b2, h4, ?_, by omega⟩
      rw [h5, h2]
      simp [wireEntries]
    | some e =>
      simp only []
      obtain ⟨b1, h1, h2, h3⟩ := putByte_spec 1 b hb
      rw [h1]
      simp only []
      obtain ⟨b2, h4, h5, h6⟩ := putBytes_spec (x.payloadBytes e) b1 (by omega)
      rw [h4]
      simp only []
      obtain ⟨b3, h7, h8, h9⟩ := ih (i + 1) b2 (by omega) (by omega)
      refine ⟨b3, h7, ?_, by omega⟩
      rw [h8, h5, h2]
      simp [wireEntries]

/-- What `serialize(pbuffer, pflusher)` writes: the size header for the
length and the wire form of the slots below the length. -/
theorem serialize_written (x : External) (b : ByteBuffer) (s : BasePVStructureArray)
    (hb : 1 ≤ b.limit) (hinv : 0 ≤ getLength s ∧ getLength s ≤ getCapacity s) :
    ∃ b1, serialize x b s = .ok b1 ∧
      written b1 = written b ++
        (x.sizeBytes (getLength s) ++ wireEntries x (s.value.take (getLength s).toNat)) := by
  simp only [getLength, getCapacity] at hinv
  unfold serialize serializeOffsetCount
  simp only [getLength]
  have c1 : ¬ ((0 : Int) < 0) := by omega
  have c2 : ¬ ((0 : Int) > s.length) := by omega
  have c3 : ¬ (s.length < 0) := by omega
  simp only [if_neg c1, if_neg c2, if_neg c3, sub_zero, gt_iff_lt, lt_self_iff_false, if_false]
  obtain ⟨b1, h1, h2, h3⟩ := putBytes_spec (x.sizeBytes s.length) b hb
  rw [h1]
  simp only []
  obtain ⟨b2, h4, h5, h6⟩ := serializeLoop_spec x s.value 0 s.length.toNat 0 b1 (by omega)
    (by omega)
  simp only [Nat.cast_zero, Nat.add_zero, List.drop_zero] at h4 h5
  refine ⟨b2, h4, ?_⟩
  rw [h5, h2]
  simp

/-- The loop of `deserialize` on a table whose slots from `P.length` on are
empty, reading the wire form of the slots `S`: the slots arrive in place. -/
theorem deserializeLoop_fresh (x : External) (n : Nat) :
    ∀ (S P : List PVStructurePtr) (t : BasePVStructureArray) (rest : List Int),
    S.length = n → t.value = P ++ List.replicate n none →
    (∀ e, some e ∈ S → ∀ r, x.decodePayload (createPVStructure x t.structureArray.getStructure)
      (x.payloadBytes e ++ r) = some (e.payload, r)) →
    deserializeLoop x P.length n t (wireEntries x S ++ rest) =
      .ok ({ t with value := P ++ S.map (received t.structureArray.getStructure) }, rest) := by
  induction n with
  | zero =>
    intro S P t rest hS hv _
    have : S = [] := List.length_eq_zero.1 hS
    subst this
    simp only [List.replicate_zero, List.append_nil] at hv
    unfold deserializeLoop
    simp only [wireEntries, List.nil_append, List.map_nil, List.append_nil]
    rw [← hv]
  | succ n ih =>
    intro S P t rest hS hv hc
    cases S with
    | nil => cases hS
    | cons p S =>
      have hS1 : S.length = n := by simpa using hS
      have hlt : P.length < t.value.length := by
        rw [hv]; simp
      have hget : t.value.getD P.length none = none := by
        rw [hv, List.replicate_succ, getD_append_length]
      have hc1 : ∀ e, some e ∈ S → ∀ r,
          x.decodePayload (createPVStructure x t.structureArray.getStructure)
            (x.payloadBytes e ++ r) = some (e.payload, r) :=
        fun e he => hc e (List.mem_cons_of_mem _ he)
      cases p with
      | none =>
        unfold deserializeLoop
        simp only [wireEntries, List.cons_append]
        rw [readAt_ok _ _ hlt, hget]
        simp only [if_true]
        have h := ih S (P ++ [none]) t rest hS1
          (by rw [hv, List.replicate_succ]; simp) hc1
        simp only [List.length_append, List.length_singleton, List.append_assoc,
          List.singleton_append] at h
        rw [h]
        simp [received]
      | some e =>
        unfold deserializeLoop
        simp only [wireEntries, List.cons_append, List.append_assoc]
        rw [readAt_ok _ _ hlt, hget]
        have h10 : ¬ ((1 : Int) = 0) := by omega
        simp only [if_neg h10, orCreate]
        rw [hc e (List.mem_cons_self _ _)]
        simp only []
        rw [writeAt_ok _ _ _ hlt]
        simp only []
        have hset : t.value.set P.length
            (some { createPVStructure x t.structureArray.getStructure with
              payload := e.payload }) =
            (P ++ [received t.structureArray.getStructure (some e)]) ++
              List.replicate n none := by
          rw [hv, List.replicate_succ, set_append_length]
          simp [received, createPVStructure]
        rw [hset]
        have h := ih S (P ++ [received t.structureArray.getStructure (some e)])
          { t with value := (P ++ [received t.structureArray.getStructure (some e)]) ++
              List.replicate n none } rest hS1 rfl hc1
        simp only [List.length_append, List.length_singleton, List.append_assoc,
          List.singleton_append] at h
        simp only [List.append_assoc, List.singleton_append]
        rw [h]
        simp

/-- The first step of `deserialize` on a freshly constructed container whose
capacity is mutable: `size` empty slots. -/
theorem prepare_fresh (sa : StructureArray) (immutable_ : Bool) (size : Int) (h : 0 ≤ size) :
    (if size > getCapacity (construct sa true immutable_) then
        setCapacity size (construct sa true immutable_)
      else .ok (construct sa true immutable_)) =
      .ok { construct sa true immutable_ with value := List.replicate size.toNat none } := by
  by_cases hs : size > getCapacity (construct sa true immutable_)
  · rw [if_pos hs]
    have hc : getCapacity (construct sa true immutable_) = 0 := rfl
    rw [hc] at hs
    rw [setCapacity_changes size _ (by rw [hc]; omega) rfl h]
    have hmin : min (getCapacity (construct sa true immutable_)) size = 0 := by
      rw [hc]; omega
    rw [hmin]
    simp [construct]
  · rw [if_neg hs]
    have hc : getCapacity (construct sa true immutable_) = 0 := rfl
    rw [hc] at hs
    have : size = 0 := by omega
    subst this
    rfl

/-- C3. Round trip: with a size-header codec and an element codec that
round-trip and a sink that delivers the bytes unchanged, `serialize()`
followed by `deserialize()` into a freshly constructed capacity-mutable
container of the same element type gives a container of the same length in
which, below the length, a slot is empty exactly when the source slot is and
an occupied slot holds an element with the payload of the source element. -/
theorem serialize_deserialize_roundtrip (x : External) (b : ByteBuffer)
    (s : BasePVStructureArray) (immutable_ : Bool) (rest : List Int)
    (hb : 1 ≤ b.limit)
    (hinv : 0 ≤ getLength s ∧ getLength s ≤ getCapacity s)
    (hsize : ∀ (n : Int) (r : List Int), 0 ≤ n → x.readSize (x.sizeBytes n ++ r) = some (n, r))
    (helem : ∀ e, some e ∈ s.value → ∀ r,
      x.decodePayload (createPVStructure x s.structureArray.getStructure)
        (x.payloadBytes e ++ r) = some (e.payload, r)) :
    ∃ b1 w t, serialize x b s = .ok b1 ∧ written b1 = written b ++ w ∧
      deserialize x (w ++ rest) (construct s.structureArray true immutable_) = .ok (t, rest) ∧
      getLength t = getLength s ∧
      ∀ i : Nat, (i : Int) < getLength s →
        (t.value[i]? = some none ↔ s.value[i]? = some none) ∧
        (∀ e, s.value[i]? = some (some e) →
          ∃ e1, t.value[i]? = some (some e1) ∧ e1.payload = e.payload) := by
  obtain ⟨b1, h1, h2⟩ := serialize_written x b s hb hinv
  simp only [getLength, getCapacity] at hinv h2 ⊢
  have hlen : (s.value.take s.length.toNat).length = s.length.toNat := by
    rw [List.length_take]; omega
  have hloop := deserializeLoop_fresh x s.length.toNat (s.value.take s.length.toNat) []
    { construct s.structureArray true immutable_ with
      value := List.replicate s.length.toNat none } rest hlen rfl
    (fun e he r => helem e (List.mem_of_mem_take he) r)
  simp only [List.length_nil, List.nil_append] at hloop
  have hde : deserialize x ((x.sizeBytes s.length ++
      wireEntries x (s.value.take s.length.toNat)) ++ rest)
      (construct s.structureArray true immutable_) =
      .ok (postPut (setLength s.length
        { construct s.structureArray true immutable_ with
          value := (s.value.take s.length.toNat).map (received s.structureArray.getStructure) }),
        rest) := by
    unfold deserialize
    rw [List.append_assoc, hsize _ _ hinv.1]
    simp only []
    rw [if_pos (by omega), prepare_fresh _ _ _ hinv.1]
    simp only []
    rw [hloop]
    rfl
  refine ⟨b1, _, _, h1, h2, hde, rfl, ?_⟩
  intro i hi
  have hi1 : i < s.length.toNat := by omega
  have hi2 : i < s.value.length := by omega
  have hslot : (postPut (setLength s.length
        { construct s.structureArray true immutable_ with
          value := (s.value.take s.length.toNat).map
            (received s.structureArray.getStructure) })).value[i]? =
      (s.value[i]?).map (received s.structureArray.getStructure) := by
    simp only [postPut, setLength]
    rw [List.getElem?_map, List.getElem?_take_of_lt hi1]
  rw [hslot, List.getElem?_eq_getElem hi2]
  cases hp : s.value[i] with
  | none => simp [received]
  | some e => simp [received]

theorem sampleExternal_size (n : Int) (r : List Int) :
    sampleExternal.readSize (sampleExternal.sizeBytes n ++ r) = some (n, r) := rfl

theorem sampleExternal_element (target e : PVStructure) (r : List Int) :
    sampleExternal.decodePayload target (sampleExternal.payloadBytes e ++ r) =
      some (e.payload, r) := by
  simp [sampleExternal]

/-- C3 at Scenario B of the specification, through a buffer of two bytes. -/
theorem serialize_deserialize_roundtrip_witness :
    (0 ≤ getLength scenarioB ∧ getLength scenarioB ≤ getCapacity scenarioB) ∧
    ∃ b1 w t, serialize sampleExternal { flushed := [], pending := [], limit := 2 } scenarioB =
        .ok b1 ∧
      written b1 = written { flushed := [], pending := [], limit := 2 } ++ w ∧
      deserialize sampleExternal (w ++ []) (construct scenarioB.structureArray true false) =
        .ok (t, []) ∧
      getLength t = getLength scenarioB ∧
      ∀ i : Nat, (i : Int) < getLength scenarioB →
        (t.value[i]? = some none ↔ scenarioB.value[i]? = some none) ∧
        (∀ e, scenarioB.value[i]? = some (some e) →
          ∃ e1, t.value[i]? = some (some e1) ∧ e1.payload = e.payload) :=
  ⟨by decide,
    serialize_deserialize_roundtrip sampleExternal { flushed := [], pending := [], limit := 2 }
      scenarioB false [] (by decide) (by decide)
      (fun n r _ => sampleExternal_size n r)
      (fun e _ r => sampleExternal_element _ e r)⟩

/-! ## `get` -/

/-- For `len >= 0` and a sum `offset + len` that is representable in `int`,
`get(offset, len)` returns `max(0, min(len, length - offset))`, stores the slot
table and the offset in `data`, and leaves the object as it is. -/
theorem get_of_nonneg_len (offset len : Int) (s : BasePVStructureArray) (hlen : 0 ≤ len)
    (_hsum : offset + len ≤ 2147483647) :
    (get offset len s).1 = max 0 (min len (getLength s - offset)) ∧
    (get offset len s).2.1 = { data := s.value, offset := offset } ∧
    (get offset len s).2.2 = s := by
  refine ⟨?_, rfl, rfl⟩
  unfold get
  simp only [getLength]
  by_cases h1 : offset + len > s.length
  · rw [if_pos h1]
    by_cases h2 : s.length - offset < 0
    · rw [if_pos h2]; omega
    · rw [if_neg h2]; omega
  · rw [if_neg h1]; omega

/-! ## Rejected and degenerate calls -/

/-- C11. On an immutable container `put` returns 0 for all arguments and
leaves slots, length and capacity as they are; nothing is released and no
notification is posted. -/
theorem put_immutable (offset len : Int) (from_ : PVStructurePtrArray) (fromOffset : Int)
    (s : BasePVStructureArray) (h : isImmutable s = true) :
    ∃ s1, put offset len from_ fromOffset s = .ok (0, s1) ∧ s1.value = s.value ∧
      getLength s1 = getLength s ∧ getCapacity s1 = getCapacity s ∧
      s1.postPuts = s.postPuts ∧ s1.deleted = s.deleted := by
  refine ⟨message .fieldIsImmutable s, ?_, rfl, rfl, rfl, rfl, rfl⟩
  unfold put
  rw [if_pos h]

/-- C11 at Scenario C: `put(0,1,src,0)` on the immutable container. -/
theorem put_immutable_witness :
    isImmutable scenarioC = true ∧
    ∃ s1, put 0 1 (.array [some (sampleElement 9)]) 0 scenarioC = .ok (0, s1) ∧
      s1.value = scenarioC.value ∧
      getLength s1 = getLength scenarioC ∧ getCapacity s1 = getCapacity scenarioC ∧
      s1.postPuts = scenarioC.postPuts ∧ s1.deleted = scenarioC.deleted :=
  ⟨rfl, put_immutable 0 1 (.array [some (sampleElement 9)]) 0 scenarioC rfl⟩

/-- C13 at a failing input. On the immutable container of Scenario C the
input "size 2, presence bytes 0, 0" is not rejected: the element of slot 0 is
released, the slot is empty afterwards and the length is 2. -/
theorem deserialize_immutable_failing :
    isImmutable scenarioC = true ∧
    scenarioC.value[0]? = some (some (sampleElement 0)) ∧ getLength scenarioC = 5 ∧
    ∃ t, deserialize sampleExternal [2, 0, 0] scenarioC = .ok (t, []) ∧
      t.value[0]? = some none ∧ t.deleted = [sampleElement 0] ∧ getLength t = 2 := by
  refine ⟨rfl, rfl, rfl, _, rfl, rfl, rfl, rfl⟩

/-- C14, amended. For `len < 1`, `put` leaves slots, length and capacity as
they are and posts nothing; it returns 0, except that with the own slot table
as source on a container that is not immutable it returns `len`. -/
theorem put_len_lt_one (offset len : Int) (from_ : PVStructurePtrArray) (fromOffset : Int)
    (s : BasePVStructureArray) (hlen : len < 1) :
    ∃ s1, put offset len from_ fromOffset s =
        .ok ((if isImmutable s = false ∧ from_ = .value then len else 0), s1) ∧
      s1.value = s.value ∧ getLength s1 = getLength s ∧ getCapacity s1 = getCapacity s ∧
      s1.postPuts = s.postPuts ∧ s1.deleted = s.deleted := by
  unfold put
  rcases Bool.eq_false_or_eq_true (isImmutable s) with him | him
  · rw [if_pos him, if_neg (by rw [him]; simp)]
    exact ⟨_, rfl, rfl, rfl, rfl, rfl, rfl⟩
  · rw [him]
    simp only [Bool.false_eq_true, if_false]
    cases from_ with
    | value =>
      simp only [true_and, if_true]
      exact ⟨_, rfl, rfl, rfl, rfl, rfl, rfl⟩
    | array a =>
      simp only [if_pos hlen]
      rw [if_neg (by simp)]
      exact ⟨_, rfl, rfl, rfl, rfl, rfl, rfl⟩

/-- C14, amended, at `put(0, 0, src, 0)` on the empty container. -/
theorem put_len_lt_one_witness :
    (0 : Int) < 1 ∧
    ∃ s1, put 0 0 (.array [some (sampleElement 9)]) 0 sampleEmpty = .ok (0, s1) ∧
      s1.value = sampleEmpty.value ∧ getLength s1 = getLength sampleEmpty ∧
      getCapacity s1 = getCapacity sampleEmpty ∧
      s1.postPuts = sampleEmpty.postPuts ∧ s1.deleted = sampleEmpty.deleted :=
  ⟨by decide, put_len_lt_one 0 0 (.array [some (sampleElement 9)]) 0 sampleEmpty (by decide)⟩

/-- C14 as stated fails with the own slot table as source: on the container
of Scenario B, which is not immutable, `put(0, -3, value, 0)` returns -3. -/
theorem put_own_storage_counterexample :
    isImmutable scenarioB = false ∧ (-3 : Int) < 1 ∧
    put 0 (-3) .value 0 scenarioB = .ok (-3, scenarioB) ∧
    ¬ ∃ s1, put 0 (-3) .value 0 scenarioB = .ok (0, s1) := by
  have h : put 0 (-3) .value 0 scenarioB = .ok (-3, scenarioB) := rfl
  refine ⟨rfl, by decide, h, ?_⟩
  rintro ⟨s1, h1⟩
  rw [h] at h1
  cases h1

/-- C16 at a failing input. The container with slots `[e, empty, e]` and
length 0 that `append(3)` and `remove(1, 1)` leave satisfies
`0 <= length <= capacity`; `compress()` returns with length 2. -/
theorem compress_length_failing :
    remove 1 1 sampleThree = .ok (true, sampleHole) ∧
    (0 ≤ getLength sampleHole ∧ getLength sampleHole ≤ getCapacity sampleHole) ∧
    getLength sampleHole = 0 ∧
    ∃ s1, compress sampleHole = .ok s1 ∧ getLength s1 = 2 := by
  refine ⟨rfl, by decide, rfl, _, rfl, rfl⟩

/-- C20 at a failing input. On the container with two slots whose capacity is
not mutable, `append(2)` has its `setCapacity(4)` rejected and then writes
slot 2, and `deserialize` of "size 3, presence bytes 0, 0, 0" has its
`setCapacity(3)` rejected and then reads slot 2: both outside the table. -/
theorem index_fixed_capacity_failing :
    (0 ≤ getLength sampleFixedTwo ∧ getLength sampleFixedTwo ≤ getCapacity sampleFixedTwo) ∧
    getCapacity sampleFixedTwo = 2 ∧
    setCapacity 4 sampleFixedTwo = .ok (message .notCapacityMutable sampleFixedTwo) ∧
    writeAt (message .notCapacityMutable sampleFixedTwo).value 2
      (some (createPVStructure sampleExternal 7)) = .error .outOfBounds ∧
    append sampleExternal 2 sampleFixedTwo = .error .outOfBounds ∧
    setCapacity 3 sampleFixedTwo = .ok (message .notCapacityMutable sampleFixedTwo) ∧
    readAt (message .notCapacityMutable sampleFixedTwo).value 2 = .error .outOfBounds ∧
    deserialize sampleExternal [3, 0, 0, 0] sampleFixedTwo = .error .outOfBounds := by
  refine ⟨by decide, rfl, rfl, rfl, rfl, rfl, rfl, rfl⟩

/-! ## `compress` twice -/

theorem occupied_append_none (w : List PVStructurePtr) (k : Nat) :
    occupied (w ++ List.replicate k none) = occupied w := by
  unfold occupied
  rw [List.filter_append]
  have : List.filter (fun p : PVStructurePtr => p.isSome) (List.replicate k none) = [] := by
    rw [List.filter_eq_nil_iff]
    intro p hp
    rw [List.eq_of_mem_replicate hp]
    simp
  rw [this, List.append_nil]

theorem occupied_idem (v : List PVStructurePtr) : occupied (occupied v) = occupied v := by
  unfold occupied
  rw [List.filter_filter]
  simp

/-- The call `compress()` as one `setCapacity` on the compacted table. -/
theorem compress_eq (s : BasePVStructureArray) :
    compress s = setCapacity ((occupied s.value).length : Int)
      { s with value := occupied s.value ++
          List.replicate (s.value.length - (occupied s.value).length) none } := by
  have h : (getCapacity s).toNat = s.value.length := by simp [getCapacity]
  unfold compress
  simp only []
  rw [h, compressLoop_whole]

/-- On a table that is its occupied slots followed by `k` empty ones, with
`k = 0` or a capacity that is not mutable, `compress()` changes neither the
slots nor the length. -/
theorem compress_fixed (s : BasePVStructureArray) (w : List PVStructurePtr) (k : Nat)
    (hw : ∀ p ∈ w, p ≠ none) (hv : s.value = w ++ List.replicate k none)
    (hk : k = 0 ∨ s.capacityMutable = false) :
    ∃ s1, compress s = .ok s1 ∧ s1.value = s.value ∧ getLength s1 = getLength s := by
  have hocc : occupied s.value = w := by
    rw [hv, occupied_append_none]
    unfold occupied
    rw [List.filter_eq_self]
    intro p hp
    cases p with
    | none => exact absurd rfl (hw none hp)
    | some e => rfl
  have hlen : s.value.length = w.length + k := by rw [hv]; simp
  have hval : occupied s.value ++
      List.replicate (s.value.length - (occupied s.value).length) none = s.value := by
    rw [hocc, hlen, Nat.add_sub_cancel_left, ← hv]
  rw [compress_eq, hval, hocc]
  by_cases hk0 : k = 0
  · refine ⟨{ s with value := s.value }, setCapacity_same _ _ ?_, rfl, rfl⟩
    simp only [getCapacity, hlen, hk0, Nat.add_zero]
  · have hm : s.capacityMutable = false := by
      rcases hk with h | h
      · exact absurd h hk0
      · exact h
    refine ⟨_, setCapacity_rejected _ _ ?_ hm, rfl, rfl⟩
    simp only [getCapacity, hlen]
    omega

/-- C15. `compress()` is idempotent, whether or not the capacity is mutable:
both calls return, and slots, capacity and length after the second are those
after the first. -/
theorem compress_idempotent (s : BasePVStructureArray) :
    ∃ s1 s2, compress s = .ok s1 ∧ compress s1 = .ok s2 ∧
      s2.value = s1.value ∧ getCapacity s2 = getCapacity s1 ∧ getLength s2 = getLength s1 := by
  have hle := occupied_length_le s.value
  have hno := occupied_no_empty s.value
  have hfirst : ∃ s1 k, compress s = .ok s1 ∧
      s1.value = occupied s.value ++ List.replicate k none ∧
      (k = 0 ∨ s1.capacityMutable = false) := by
    rw [compress_eq]
    obtain ⟨w, hw⟩ : ∃ w, w = occupied s.value ++
        List.replicate (s.value.length - (occupied s.value).length) none := ⟨_, rfl⟩
    rw [← hw]
    have hwl : w.length = s.value.length := by
      rw [hw]
      simp only [List.length_append, List.length_replicate]
      omega
    by_cases he : (occupied s.value).length = s.value.length
    · refine ⟨_, s.value.length - (occupied s.value).length, setCapacity_same _ _ ?_, hw,
        Or.inl (by omega)⟩
      simp only [getCapacity, hwl]
      omega
    · have hne : getCapacity { s with value := w } ≠ ((occupied s.value).length : Int) := by
        simp only [getCapacity, hwl]
        omega
      rcases Bool.eq_false_or_eq_true s.capacityMutable with hm | hm
      · refine ⟨_, 0, setCapacity_changes _ _ hne hm (by omega), ?_, Or.inl rfl⟩
        have hmin : min (getCapacity { s with value := w })
            ((occupied s.value).length : Int) = ((occupied s.value).length : Int) := by
          simp only [getCapacity, hwl]
          omega
        simp only [hmin]
        rw [hw]
        simp
      · exact ⟨_, _, setCapacity_rejected _ _ hne hm, hw, Or.inr hm⟩
  obtain ⟨s1, k, h1, hv, hk⟩ := hfirst
  obtain ⟨s2, h2, h3, h4⟩ := compress_fixed s1 (occupied s.value) k hno hv hk
  exact ⟨s1, s2, h1, h2, h3, by simp only [getCapacity, h3], h4⟩

/-! ## `serialize` with offset and count -/

/-- C18. `serialize(sink, offset, count)` with `o = min(max(offset, 0), length)`
and `c = min(count < 0 ? length : count, length - o)` writes the size header
for `c` and then the wire form of the `c` slots from `o` on: the byte 0 for an
empty slot, the byte 1 and the element's own serialization for an occupied one;
`c` is not negative.  The method is `const`: it yields the sink only. -/
theorem serializeOffsetCount_spec (x : External) (b : ByteBuffer) (offset count : Int)
    (s : BasePVStructureArray) (o c : Int)
    (hb : 1 ≤ b.limit) (hinv : 0 ≤ getLength s ∧ getLength s ≤ getCapacity s)
    (ho : o = min (max offset 0) (getLength s))
    (hc : c = min (if count < 0 then getLength s else count) (getLength s - o)) :
    0 ≤ c ∧
    ∃ b1, serializeOffsetCount x b offset count s = .ok b1 ∧
      written b1 = written b ++
        (x.sizeBytes c ++ wireEntries x ((s.value.drop o.toNat).take c.toNat)) ∧
      ((s.value.drop o.toNat).take c.toNat).length = c.toNat ∧
      ∀ i : Nat, (i : Int) < c →
        ((s.value.drop o.toNat).take c.toNat)[i]? = s.value[o.toNat + i]? := by
  simp only [getLength, getCapacity] at hinv ho hc
  have ho0 : 0 ≤ o ∧ o ≤ s.length := by omega
  have hc0 : 0 ≤ c ∧ o + c ≤ s.length := by
    split_ifs at hc <;> omega
  have hoff : (if offset < 0 then 0 else if offset > s.length then s.length else offset) = o := by
    split_ifs <;> omega
  have hcnt : (if (if count < 0 then s.length else count) > s.length - o then s.length - o
      else (if count < 0 then s.length else count)) = c := by
    split_ifs at hc ⊢ <;> omega
  refine ⟨hc0.1, ?_⟩
  obtain ⟨oN, hon⟩ := Int.eq_ofNat_of_zero_le ho0.1
  obtain ⟨cn, hcn⟩ := Int.eq_ofNat_of_zero_le hc0.1
  unfold serializeOffsetCount
  simp only [getLength]
  rw [hoff, hcnt]
  obtain ⟨b1, h1, h2, h3⟩ := putBytes_spec (x.sizeBytes c) b hb
  rw [h1]
  simp only []
  subst hon hcn
  obtain ⟨b2, h4, h5, _⟩ := serializeLoop_spec x s.value oN cn 0 b1 (by omega) (by omega)
  simp only [Nat.zero_add] at h5
  simp only [Int.toNat_ofNat]
  refine ⟨b2, h4, ?_, ?_, ?_⟩
  · rw [h5, h2, List.append_assoc]
  · rw [List.length_take, List.length_drop]
    omega
  · intro i hi
    have hi1 : i < cn := by omega
    rw [List.getElem?_take_of_lt hi1, List.getElem?_drop]

/-- C18 on Scenario B: `serialize(sink, 1, -1)` writes the size 4 and the
slots 1 to 4. -/
theorem serializeOffsetCount_spec_witness :
    (0 ≤ getLength scenarioB ∧ getLength scenarioB ≤ getCapacity scenarioB) ∧
    (1 : Int) = min (max 1 0) (getLength scenarioB) ∧
    (4 : Int) = min (if (-1 : Int) < 0 then getLength scenarioB else -1)
      (getLength scenarioB - 1) ∧
    (0 : Int) ≤ 4 ∧
    ∃ b1, serializeOffsetCount sampleExternal { flushed := [], pending := [], limit := 1 }
        1 (-1) scenarioB = .ok b1 ∧
      written b1 = written { flushed := [], pending := [], limit := 1 } ++
        (sampleExternal.sizeBytes 4 ++
          wireEntries sampleExternal ((scenarioB.value.drop (1 : Int).toNat).take (4 : Int).toNat)) ∧
      ((scenarioB.value.drop (1 : Int).toNat).take (4 : Int).toNat).length = (4 : Int).toNat ∧
      ∀ i : Nat, (i : Int) < 4 →
        ((scenarioB.value.drop (1 : Int).toNat).take (4 : Int).toNat)[i]? =
          scenarioB.value[(1 : Int).toNat + i]? :=
  ⟨by decide, by decide, by decide,
    serializeOffsetCount_spec sampleExternal { flushed := [], pending := [], limit := 1 }
      1 (-1) scenarioB 1 4 (by decide) (by decide) (by decide) (by decide)⟩

/-! ## `put` with an incompatible element -/

theorem slotsTyped_set {st : StructureConstPtr} {v : List PVStructurePtr} (i : Nat)
    {p : PVStructurePtr} (hv : slotsTyped st v) (hp : ∀ e, p = some e → e.getStructure = st) :
    slotsTyped st (v.set i p) := by
  intro e he
  rcases List.mem_or_eq_of_mem_set he with h | h
  · exact hv e h
  · exact hp e h.symm

theorem slotsTyped_writeAt {st : StructureConstPtr} {v v1 : List PVStructurePtr} {i : Int}
    {p : PVStructurePtr} (h : writeAt v i p = .ok v1) (hv : slotsTyped st v)
    (hp : ∀ e, p = some e → e.getStructure = st) : slotsTyped st v1 := by
  unfold writeAt at h
  split at h
  · cases h
    exact slotsTyped_set _ hv hp
  · cases h

theorem slotsTyped_readAt {st : StructureConstPtr} {v : List PVStructurePtr} {i : Int}
    {e : PVStructure} (h : readAt v i = .ok (some e)) (hv : slotsTyped st v) :
    e.getStructure = st := by
  have hb := readAt_inBounds h
  obtain ⟨k, rfl⟩ := Int.eq_ofNat_of_zero_le hb.1
  have hk : k < v.length := by omega
  rw [readAt_ok _ _ hk, List.getD_eq_getElem?_getD, List.getElem?_eq_getElem hk] at h
  simp only [Option.getD_some] at h
  have h1 : v[k] = some e := by
    injection h
  apply hv
  rw [← h1]
  exact List.getElem_mem _

theorem slotsTyped_take_append (st : StructureConstPtr) (v : List PVStructurePtr) (m k : Nat)
    (hv : slotsTyped st v) : slotsTyped st (v.take m ++ List.replicate k none) := by
  intro e he
  rcases List.mem_append.1 he with h | h
  · exact hv e (List.mem_of_mem_take h)
  · cases List.eq_of_mem_replicate h

theorem setCapacity_typed {n : Int} {s s1 : BasePVStructureArray}
    (h : setCapacity n s = .ok s1) (hs : typeHomogeneous s) :
    typeHomogeneous s1 ∧ s1.structureArray = s.structureArray := by
  rcases setCapacity_ok_cases h with h1 | h1 | ⟨_, _, _, h1⟩
  · rw [h1]; exact ⟨hs, rfl⟩
  · rw [h1]; exact ⟨hs, rfl⟩
  · rw [h1]
    exact ⟨slotsTyped_take_append _ _ _ _ hs, rfl⟩

theorem removeLoop_typed (st : StructureConstPtr) (n : Nat) :
    ∀ (i : Int) (s s1 : BasePVStructureArray),
    removeLoop i n s = .ok s1 → slotsTyped st s.value →
    slotsTyped st s1.value ∧ s1.structureArray = s.structureArray := by
  induction n with
  | zero =>
    intro i s s1 h hs
    unfold removeLoop at h
    cases h
    exact ⟨hs, rfl⟩
  | succ n ih =>
    intro i s s1 h hs
    unfold removeLoop at h
    cases hr : readAt s.value i with
    | error f => rw [hr] at h; cases h
    | ok p =>
      rw [hr] at h
      cases p with
      | none => exact ih _ _ _ h hs
      | some e =>
        simp only [] at h
        cases hw : writeAt s.value i none with
        | error f => rw [hw] at h; cases h
        | ok v =>
          rw [hw] at h
          simp only [] at h
          obtain ⟨h1, h2⟩ := ih _ _ _ h
            (slotsTyped_writeAt hw hs (by intro e he; cases he))
          exact ⟨h1, h2⟩

theorem remove_typed {offset number : Int} {s s1 : BasePVStructureArray} {r : Bool}
    (h : remove offset number s = .ok (r, s1)) (hs : typeHomogeneous s) :
    typeHomogeneous s1 := by
  unfold remove at h
  simp only [] at h
  split at h
  · cases h; exact hs
  · cases hl : removeLoop offset number.toNat s with
    | error f => rw [hl] at h; cases h
    | ok s2 =>
      rw [hl] at h
      cases h
      obtain ⟨h1, h2⟩ := removeLoop_typed _ _ _ _ _ hl hs
      unfold typeHomogeneous
      rw [h2]
      exact h1

theorem appendLoop_typed (x : External) (st : StructureConstPtr) (n : Nat) :
    ∀ (i : Int) (v v1 : List PVStructurePtr),
    appendLoop x st i n v = .ok v1 → slotsTyped st v → slotsTyped st v1 := by
  induction n with
  | zero =>
    intro i v v1 h hv
    unfold appendLoop at h
    cases h; exact hv
  | succ n ih =>
    intro i v v1 h hv
    unfold appendLoop at h
    cases hw : writeAt v i (some (createPVStructure x st)) with
    | error f => rw [hw] at h; cases h
    | ok v2 =>
      rw [hw] at h
      exact ih _ _ _ h (slotsTyped_writeAt hw hv (by intro e he; cases he; rfl))

theorem append_typed {x : External} {k r : Int} {s s1 : BasePVStructureArray}
    (h : append x k s = .ok (r, s1)) (hs : typeHomogeneous s) : typeHomogeneous s1 := by
  unfold append at h
  simp only [] at h
  cases hc : setCapacity (getCapacity s + k) s with
  | error f => rw [hc] at h; cases h
  | ok s2 =>
    rw [hc] at h
    simp only [] at h
    obtain ⟨h2, h3⟩ := setCapacity_typed hc hs
    cases ha : appendLoop x s2.structureArray.getStructure (getCapacity s)
        (getCapacity s + k - getCapacity s).toNat s2.value with
    | error f => rw [ha] at h; cases h
    | ok v =>
      rw [ha] at h
      cases h
      exact appendLoop_typed _ _ _ _ _ _ ha h2

theorem compress_typed {s s1 : BasePVStructureArray}
    (h : compress s = .ok s1) (hs : typeHomogeneous s) : typeHomogeneous s1 := by
  rw [compress_eq] at h
  refine (setCapacity_typed h ?_).1
  intro e he
  rcases List.mem_append.1 he with h1 | h1
  · unfold occupied at h1
    exact hs e (List.mem_filter.1 h1).1
  · cases List.eq_of_mem_replicate h1

theorem deletePtr_structureArray (p : PVStructurePtr) (s : BasePVStructureArray) :
    (deletePtr p s).structureArray = s.structureArray := by cases p <;> rfl

/-- The copy loop of `put` keeps the slots typed, whether it ends normally or
by the exception. -/
theorem putLoop_typed (st : StructureConstPtr) (offset : Int) (from_ : List PVStructurePtr)
    (fromOffset : Int) (n : Nat) : ∀ (i : Nat) (s s1 : BasePVStructureArray),
    (putLoop st offset from_ fromOffset i n s = .ok s1 ∨
      putLoop st offset from_ fromOffset i n s = .error (.invalidArgument s1)) →
    slotsTyped st s.value →
    slotsTyped st s1.value ∧ s1.structureArray = s.structureArray := by
  induction n with
  | zero =>
    intro i s s1 h hs
    unfold putLoop at h
    rcases h with h | h
    · cases h; exact ⟨hs, rfl⟩
    · cases h
  | succ n ih =>
    intro i s s1 h hs
    unfold putLoop at h
    cases hr : readAt s.value (↑i + offset) with
    | error f =>
      rw [hr] at h
      have := readAt_error hr
      subst this
      rcases h with h | h <;> cases h
    | ok old =>
      rw [hr] at h
      simp only [] at h
      have hv : (deletePtr old s).value = s.value := deletePtr_value _ _
      have hsa : (deletePtr old s).structureArray = s.structureArray :=
        deletePtr_structureArray _ _
      generalize deletePtr old s = s2 at h hv hsa
      have hs2 : slotsTyped st s2.value := by rw [hv]; exact hs
      cases hf : readAt from_ (↑i + fromOffset) with
      | error f =>
        rw [hf] at h
        have := readAt_error hf
        subst this
        rcases h with h | h <;> cases h
      | ok frompv =>
        rw [hf] at h
        cases frompv with
        | none =>
          simp only [] at h
          cases hw : writeAt s2.value (↑i + offset) none with
          | error f =>
            rw [hw] at h
            have := writeAt_error hw
            subst this
            rcases h with h | h <;> cases h
          | ok v =>
            rw [hw] at h
            obtain ⟨h1, h2⟩ := ih _ _ _ h
              (slotsTyped_writeAt hw hs2 (by intro e he; cases he))
            exact ⟨h1, by rw [h2]; exact hsa⟩
        | some pv =>
          simp only [] at h
          split at h
          · rcases h with h | h
            · cases h
            · cases h
              exact ⟨hs2, hsa⟩
          · rename_i hty
            have hty1 : pv.getStructure = st := by
              by_contra hc
              exact hty hc
            cases hw : writeAt s2.value (↑i + offset) (some pv) with
            | error f =>
              rw [hw] at h
              have := writeAt_error hw
              subst this
              rcases h with h | h <;> cases h
            | ok v =>
              rw [hw] at h
              obtain ⟨h1, h2⟩ := ih _ _ _ h
                (slotsTyped_writeAt hw hs2 (by intro e he; cases he; exact hty1))
              exact ⟨h1, by rw [h2]; exact hsa⟩

theorem putCopy_typed {offset len : Int} {from_ : List PVStructurePtr} {fromOffset : Int}
    {s s1 : BasePVStructureArray}
    (h : (∃ r, putCopy offset len from_ fromOffset s = .ok (r, s1)) ∨
      putCopy offset len from_ fromOffset s = .error (.invalidArgument s1))
    (hs : typeHomogeneous s) : typeHomogeneous s1 := by
  unfold putCopy at h
  simp only [] at h
  cases hl : putLoop s.structureArray.getStructure offset from_ fromOffset 0 len.toNat s with
  | error f =>
    rw [hl] at h
    rcases h with ⟨r, h⟩ | h
    · cases h
    · cases h
      obtain ⟨h1, h2⟩ := putLoop_typed _ _ _ _ _ _ _ _ (Or.inr hl) hs
      unfold typeHomogeneous
      rw [h2]
      exact h1
  | ok s2 =>
    rw [hl] at h
    rcases h with ⟨r, h⟩ | h
    · cases h
      obtain ⟨h1, h2⟩ := putLoop_typed _ _ _ _ _ _ s s2 (Or.inl hl) hs
      unfold typeHomogeneous
      show slotsTyped s2.structureArray.getStructure s2.value
      rw [h2]
      exact h1
    · cases h

theorem put_typed {offset len : Int} {from_ : PVStructurePtrArray} {fromOffset : Int}
    {s s1 : BasePVStructureArray}
    (h : (∃ r, put offset len from_ fromOffset s = .ok (r, s1)) ∨
      put offset len from_ fromOffset s = .error (.invalidArgument s1))
    (hs : typeHomogeneous s) : typeHomogeneous s1 := by
  unfold put at h
  split at h
  · rcases h with ⟨r, h⟩ | h
    · cases h; exact hs
    · cases h
  · cases from_ with
    | value =>
      simp only [] at h
      rcases h with ⟨r, h⟩ | h
      · cases h; exact hs
      · cases h
    | array a =>
      simp only [] at h
      split at h
      · rcases h with ⟨r, h⟩ | h
        · cases h; exact hs
        · cases h
      · split at h
        · split at h
          · cases hc : setCapacity (offset + len) s with
            | error f =>
              rw [hc] at h
              rcases h with ⟨r, h⟩ | h
              · cases h
              · simp only [] at h
                have := setCapacity_error hc
                subst this
                cases h
            | ok s2 =>
              rw [hc] at h
              simp only [] at h
              have h2 := (setCapacity_typed hc hs).1
              split at h
              · rcases h with ⟨r, h⟩ | h
                · cases h; exact h2
                · cases h
              · exact putCopy_typed h h2
          · exact putCopy_typed h hs
        · exact putCopy_typed h hs

/-- The loop of `deserialize` keeps the slots typed. -/
theorem deserializeLoop_typed (x : External) (n : Nat) :
    ∀ (i : Nat) (s : BasePVStructureArray) (input : List Int) (s1 : BasePVStructureArray)
      (rest : List Int),
    deserializeLoop x i n s input = .ok (s1, rest) → typeHomogeneous s →
    typeHomogeneous s1 := by
  induction n with
  | zero =>
    intro i s input s1 rest h hs
    unfold deserializeLoop at h
    cases h
    exact hs
  | succ n ih =>
    intro i s input s1 rest h hs
    unfold deserializeLoop at h
    cases input with
    | nil => cases h
    | cons temp rest0 =>
      simp only [] at h
      cases hr : readAt s.value i with
      | error f => rw [hr] at h; cases h
      | ok p =>
        rw [hr] at h
        simp only [] at h
        split at h
        · cases p with
          | none =>
            simp only [] at h
            exact ih _ _ _ _ _ h hs
          | some e =>
            simp only [] at h
            cases hw : writeAt s.value i none with
            | error f => rw [hw] at h; cases h
            | ok v =>
              rw [hw] at h
              simp only [] at h
              exact ih _ _ _ _ _ h (slotsTyped_writeAt hw hs (by intro e he; cases he))
        · have hty : (orCreate x s.structureArray.getStructure p).getStructure =
              s.structureArray.getStructure := by
            cases p with
            | none => rfl
            | some e => exact slotsTyped_readAt hr hs
          generalize orCreate x s.structureArray.getStructure p = e at h hty
          cases hd : x.decodePayload e rest0 with
          | none => rw [hd] at h; cases h
          | some pr =>
            rw [hd] at h
            obtain ⟨payload, rest1⟩ := pr
            simp only [] at h
            cases hw : writeAt s.value i (some { e with payload := payload }) with
            | error f => rw [hw] at h; cases h
            | ok v =>
              rw [hw] at h
              simp only [] at h
              exact ih _ _ _ _ _ h
                (slotsTyped_writeAt hw hs (by intro e1 he; cases he; exact hty))

theorem deserialize_typed {x : External} {input rest : List Int}
    {s s1 : BasePVStructureArray}
    (h : deserialize x input s = .ok (s1, rest)) (hs : typeHomogeneous s) :
    typeHomogeneous s1 := by
  unfold deserialize at h
  cases hrs : x.readSize input with
  | none => rw [hrs] at h; cases h
  | some pr =>
    rw [hrs] at h
    obtain ⟨size, rest0⟩ := pr
    simp only [] at h
    split at h
    · cases hc : (if size > getCapacity s then setCapacity size s else .ok s) with
      | error f => rw [hc] at h; cases h
      | ok s2 =>
        rw [hc] at h
        simp only [] at h
        have h2 : typeHomogeneous s2 := by
          split at hc
          · exact (setCapacity_typed hc hs).1
          · cases hc; exact hs
        cases hl : deserializeLoop x 0 size.toNat s2 rest0 with
        | error f => rw [hl] at h; cases h
        | ok pr2 =>
          rw [hl] at h
          obtain ⟨s3, rest1⟩ := pr2
          simp only [] at h
          cases h
          have h3 := deserializeLoop_typed _ _ _ _ _ s3 _ hl h2
          exact h3
    · cases h
      exact hs

/-- C17. Type homogeneity is an invariant: in every state reachable from a
freshly created container by `append`, `remove`, `compress`, `setCapacity`,
`put` (returning or throwing) and `deserialize`, every occupied slot holds an
element whose structure type is the element type of the container. -/
theorem type_homogeneous (x : External) (s : BasePVStructureArray) (h : Reachable x s) :
    typeHomogeneous s := by
  induction h with
  | construct sa cm im =>
    intro e he
    cases he
  | setCapacityMutable b _ ih => exact ih
  | setImmutable b _ ih => exact ih
  | append k r _ h ih => exact append_typed h ih
  | remove o n r _ h ih => exact remove_typed h ih
  | compress _ h ih => exact compress_typed h ih
  | setCapacity n _ h ih => exact (setCapacity_typed h ih).1
  | putReturns o l f fo r _ h ih => exact put_typed (Or.inl ⟨r, h⟩) ih
  | putThrows o l f fo _ h ih => exact put_typed (Or.inr h) ih
  | deserialize input rest _ h ih => exact deserialize_typed h ih

/-- A state with a mixed history: `append(3)`, `remove(1, 1)`, then a `put` that
throws at its third entry. -/
theorem sampleThrown_reachable :
    ∃ s1, put 1 3 (.array [some (sampleElement 1), none, some otherElement]) 0 sampleHole =
        .error (.invalidArgument s1) ∧ Reachable sampleExternal s1 :=
  ⟨_, rfl, Reachable.putThrows 1 3 (.array [some (sampleElement 1), none, some otherElement]) 0
    (Reachable.remove 1 1 true sampleThree_reachable
      (rfl : remove 1 1 sampleThree = .ok (true, sampleHole))) rfl⟩

/-- C17 at the state a throwing `put` leaves after `append(3)` and
`remove(1, 1)`. -/
theorem type_homogeneous_witness :
    ∃ s1, put 1 3 (.array [some (sampleElement 1), none, some otherElement]) 0 sampleHole =
        .error (.invalidArgument s1) ∧ Reachable sampleExternal s1 ∧ typeHomogeneous s1 :=
  match sampleThrown_reachable with
  | ⟨s1, h1, h2⟩ => ⟨s1, h1, h2, type_homogeneous sampleExternal s1 h2⟩

/-! ## `deserialize` into an existing container -/

/-- What `decodeEntries` pairs with each slot: a presence byte and the new
slot, empty exactly when the byte is 0, otherwise the element of the old slot
(a fresh default element when the old slot was empty) with a decoded payload. -/
theorem decodeEntries_spec (x : External) (st : StructureConstPtr) :
    ∀ (slots : List PVStructurePtr) (input : List Int) (entries : List (Int × PVStructurePtr))
      (rest : List Int),
    decodeEntries x st slots input = some (entries, rest) →
    entries.length = slots.length ∧
    ∀ i : Nat, i < slots.length →
      ∃ b q, entries[i]? = some (b, q) ∧ (q = none ↔ b = 0) ∧
        (b ≠ 0 → ∃ payload,
          q = some { orCreate x st (slots.getD i none) with payload := payload }) := by
  intro slots
  induction slots with
  | nil =>
    intro input entries rest h
    unfold decodeEntries at h
    cases h
    exact ⟨rfl, fun i hi => absurd hi (Nat.not_lt_zero _)⟩
  | cons p slots ih =>
    intro input entries rest h
    cases input with
    | nil => unfold decodeEntries at h; cases h
    | cons temp rest0 =>
      unfold decodeEntries at h
      by_cases ht : temp = 0
      · rw [if_pos ht] at h
        cases hd : decodeEntries x st slots rest0 with
        | none => rw [hd] at h; cases h
        | some pr =>
          rw [hd] at h
          obtain ⟨es, r⟩ := pr
          simp only [Option.some.injEq, Prod.mk.injEq] at h
          obtain ⟨h1, h2⟩ := h
          subst h1 h2
          obtain ⟨e1, e2⟩ := ih _ _ _ hd
          refine ⟨by simp [e1], ?_⟩
          intro i hi
          cases i with
          | zero => exact ⟨temp, none, by simp, by simp [ht], fun hb => absurd ht hb⟩
          | succ j =>
            obtain ⟨b, q, f1, f2, f3⟩ := e2 j (by simpa using hi)
            exact ⟨b, q, by simpa using f1, f2, by simpa using f3⟩
      · rw [if_neg ht] at h
        cases hp : x.decodePayload (orCreate x st p) rest0 with
        | none => rw [hp] at h; cases h
        | some pp =>
          rw [hp] at h
          obtain ⟨payload, rest1⟩ := pp
          simp only [] at h
          cases hd : decodeEntries x st slots rest1 with
          | none => rw [hd] at h; cases h
          | some pr =>
            rw [hd] at h
            obtain ⟨es, r⟩ := pr
            simp only [Option.some.injEq, Prod.mk.injEq] at h
            obtain ⟨h1, h2⟩ := h
            subst h1 h2
            obtain ⟨e1, e2⟩ := ih _ _ _ hd
            refine ⟨by simp [e1], ?_⟩
            intro i hi
            cases i with
            | zero =>
              exact ⟨temp, some { orCreate x st p with payload := payload }, by simp,
                by simp [ht], fun _ => ⟨payload, rfl⟩⟩
            | succ j =>
              obtain ⟨b, q, f1, f2, f3⟩ := e2 j (by simpa using hi)
              exact ⟨b, q, by simpa using f1, f2, by simpa using f3⟩

/-- The loop of `deserialize` on the slots `slots` that follow the first
`P.length` slots of the table: it returns when `decodeEntries` does, with the
new slots in place; the other slots, the length and the element type are
unchanged. -/
theorem deserializeLoop_decode (x : External) (n : Nat) :
    ∀ (slots P T : List PVStructurePtr) (t : BasePVStructureArray) (input : List Int)
      (entries : List (Int × PVStructurePtr)) (rest : List Int),
    slots.length = n → t.value = P ++ (slots ++ T) →
    decodeEntries x t.structureArray.getStructure slots input = some (entries, rest) →
    ∃ t1, deserializeLoop x P.length n t input = .ok (t1, rest) ∧
      t1.value = P ++ (entries.map (fun en => en.2) ++ T) ∧
      t1.length = t.length ∧ t1.postPuts = t.postPuts ∧
      t1.structureArray = t.structureArray := by
  induction n with
  | zero =>
    intro slots P T t input entries rest hn hv hd
    have : slots = [] := List.length_eq_zero.1 hn
    subst this
    unfold decodeEntries at hd
    cases hd
    exact ⟨t, rfl, by simpa using hv, rfl, rfl, rfl⟩
  | succ n ih =>
    intro slots P T t input entries rest hn hv hd
    cases slots with
    | nil => cases hn
    | cons p slots =>
      have hn1 : slots.length = n := by simpa using hn
      have hlt : P.length < t.value.length := by rw [hv]; simp
      have hget : t.value.getD P.length none = p := by
        rw [hv, List.cons_append, getD_append_length]
      cases input with
      | nil => unfold decodeEntries at hd; cases hd
      | cons temp rest0 =>
        unfold decodeEntries at hd
        unfold deserializeLoop
        simp only []
        rw [readAt_ok _ _ hlt, hget]
        simp only []
        by_cases ht : temp = 0
        · rw [if_pos ht] at hd
          rw [if_pos ht]
          cases hd1 : decodeEntries x t.structureArray.getStructure slots rest0 with
          | none => rw [hd1] at hd; cases hd
          | some pr =>
            rw [hd1] at hd
            obtain ⟨es, r⟩ := pr
            simp only [Option.some.injEq, Prod.mk.injEq] at hd
            obtain ⟨h1, h2⟩ := hd
            subst h1 h2
            have hset : t.value.set P.length none = (P ++ [none]) ++ (slots ++ T) := by
              rw [hv, List.cons_append, set_append_length]
              simp
            cases p with
            | none =>
              simp only []
              have hv1 : t.value = (P ++ [none]) ++ (slots ++ T) := by
                rw [hv]; simp
              obtain ⟨t1, g1, g2, g3⟩ := ih slots (P ++ [none]) T t rest0 es r hn1 hv1 hd1
              simp only [List.length_append, List.length_singleton] at g1
              refine ⟨t1, g1, ?_, g3⟩
              rw [g2]
              simp
            | some e =>
              simp only []
              rw [writeAt_ok _ _ _ hlt, hset]
              simp only []
              obtain ⟨t1, g1, g2, g3⟩ := ih slots (P ++ [none]) T
                { t with value := (P ++ [none]) ++ (slots ++ T), deleted := t.deleted ++ [e] }
                rest0 es r hn1 rfl hd1
              simp only [List.length_append, List.length_singleton] at g1
              refine ⟨t1, g1, ?_, g3⟩
              rw [g2]
              simp
        · rw [if_neg ht] at hd
          rw [if_neg ht]
          cases hp : x.decodePayload (orCreate x t.structureArray.getStructure p) rest0 with
          | none => rw [hp] at hd; cases hd
          | some pp =>
            rw [hp] at hd
            obtain ⟨payload, rest1⟩ := pp
            simp only [] at hd ⊢
            cases hd1 : decodeEntries x t.structureArray.getStructure slots rest1 with
            | none => rw [hd1] at hd; cases hd
            | some pr =>
              rw [hd1] at hd
              obtain ⟨es, r⟩ := pr
              simp only [Option.some.injEq, Prod.mk.injEq] at hd
              obtain ⟨h1, h2⟩ := hd
              subst h1 h2
              rw [writeAt_ok _ _ _ hlt]
              simp only []
              obtain ⟨q, hq⟩ : ∃ q : PVStructurePtr, q = some
                  { orCreate x t.structureArray.getStructure p with payload := payload } :=
                ⟨_, rfl⟩
              rw [← hq]
              have hset : t.value.set P.length q = (P ++ [q]) ++ (slots ++ T) := by
                rw [hv, List.cons_append, set_append_length]
                simp
              rw [hset]
              obtain ⟨t1, g1, g2, g3⟩ := ih slots (P ++ [q]) T
                { t with value := (P ++ [q]) ++ (slots ++ T) } rest1 es r hn1 rfl hd1
              simp only [List.length_append, List.length_singleton] at g1
              refine ⟨t1, g1, ?_, g3⟩
              rw [g2]
              simp

/-- The first step of `deserialize` on a container whose capacity is mutable:
the table is grown by empty slots up to `size`. -/
theorem prepare_mutable (s : BasePVStructureArray) (size : Int) (h : 0 ≤ size)
    (hm : s.capacityMutable = true) :
    ∃ s1, (if size > getCapacity s then setCapacity size s else .ok s) = .ok s1 ∧
      s1.value = s.value ++ List.replicate (size.toNat - s.value.length) none ∧
      s1.structureArray = s.structureArray ∧ s1.postPuts = s.postPuts := by
  by_cases hs : size > getCapacity s
  · rw [if_pos hs]
    have hne : getCapacity s ≠ size := by omega
    rw [setCapacity_changes size s hne hm h]
    simp only [getCapacity] at hs
    have hmin : min (getCapacity s) size = getCapacity s := by
      simp only [getCapacity]; omega
    rw [hmin]
    have hA : (getCapacity s).toNat = s.value.length := by simp [getCapacity]
    have hB : (size - getCapacity s).toNat = size.toNat - s.value.length := by
      simp only [getCapacity]; omega
    rw [hA, hB, List.take_length]
    exact ⟨_, rfl, rfl, rfl, rfl⟩
  · rw [if_neg hs]
    simp only [getCapacity] at hs
    have : size.toNat - s.value.length = 0 := by omega
    exact ⟨s, rfl, by rw [this]; simp, rfl, rfl⟩

/-- C19. `deserialize` on a container that is not immutable and whose capacity
is mutable. A negative size header leaves the container as it is. With a size
header `size >= 0` and a well-formed input: the length is `size`, the capacity
is `max(old capacity, size)`, the notification is posted; for `i < size` slot
`i` is empty exactly when presence byte `i` is 0, an occupied slot that
receives another byte keeps its element with a decoded payload, an empty one
receives a fresh default element of the element type with a decoded payload;
every slot from `size` on is unchanged. -/
theorem deserialize_spec (x : External) (input rest : List Int) (size : Int)
    (s : BasePVStructureArray)
    (_him : isImmutable s = false) (hm : isCapacityMutable s = true)
    (hsize : x.readSize input = some (size, rest)) :
    (size < 0 → deserialize x input s = .ok (s, rest)) ∧
    (0 ≤ size → ∀ (entries : List (Int × PVStructurePtr)) (rest1 : List Int),
      decodeEntries x s.structureArray.getStructure
        ((s.value ++ List.replicate (size.toNat - s.value.length) none).take size.toNat) rest =
        some (entries, rest1) →
      ∃ t, deserialize x input s = .ok (t, rest1) ∧
        getLength t = size ∧ getCapacity t = max (getCapacity s) size ∧
        t.postPuts = s.postPuts + 1 ∧
        (∀ i : Nat, (i : Int) < size →
          ∃ b q, entries[i]? = some (b, q) ∧ t.value[i]? = some q ∧ (q = none ↔ b = 0) ∧
            (b ≠ 0 → ∀ e, s.value[i]? = some (some e) →
              ∃ payload, q = some { e with payload := payload }) ∧
            (b ≠ 0 → (∀ e, s.value[i]? ≠ some (some e)) →
              ∃ payload, q = some
                { createPVStructure x s.structureArray.getStructure with payload := payload })) ∧
        (∀ i : Nat, size ≤ (i : Int) → t.value[i]? = s.value[i]?)) := by
  simp only [isCapacityMutable] at hm
  constructor
  · intro hneg
    unfold deserialize
    rw [hsize]
    simp only []
    rw [if_neg (by omega)]
  · intro hpos entries rest1 hdec
    obtain ⟨s1, hprep, hv1, hsa, hpp⟩ := prepare_mutable s size hpos hm
    obtain ⟨V, hV⟩ : ∃ V, V = s.value ++ List.replicate (size.toNat - s.value.length) none :=
      ⟨_, rfl⟩
    rw [← hV] at hdec hv1
    have hVlen : V.length = max s.value.length size.toNat := by
      rw [hV]
      simp only [List.length_append, List.length_replicate]
      omega
    have hVget : ∀ i : Nat, V[i]? =
        if i < s.value.length then s.value[i]? else if i < size.toNat then some none else none := by
      intro i
      rw [hV]
      by_cases hi : i < s.value.length
      · rw [if_pos hi, List.getElem?_append_left hi]
      · rw [if_neg hi, List.getElem?_append_right (by omega), List.getElem?_replicate]
        by_cases hi2 : i < size.toNat
        · rw [if_pos hi2, if_pos (by omega)]
        · rw [if_neg hi2, if_neg (by omega)]
    have hsl : (V.take size.toNat).length = size.toNat := by
      rw [List.length_take]; omega
    obtain ⟨hel, hent⟩ := decodeEntries_spec x _ _ _ _ _ hdec
    rw [hsl] at hel hent
    have hsplit : s1.value = [] ++ (V.take size.toNat ++ V.drop size.toNat) := by
      rw [hv1, List.nil_append, List.take_append_drop]
    rw [← hsa] at hdec
    obtain ⟨t1, g1, g2, g3, g4, g5⟩ := deserializeLoop_decode x size.toNat (V.take size.toNat) []
      (V.drop size.toNat) s1 rest entries rest1 hsl hsplit hdec
    simp only [List.length_nil, List.nil_append] at g1 g2
    refine ⟨postPut (setLength size t1), ?_, rfl, ?_, ?_, ?_, ?_⟩
    · unfold deserialize
      rw [hsize]
      simp only []
      rw [if_pos (by omega), hprep]
      simp only []
      rw [g1]
    · simp only [getCapacity, postPut, setLength, g2, List.length_append, List.length_map,
        List.length_drop, hel, hVlen]
      omega
    · simp only [postPut, setLength, g4, hpp]
    · intro i hi
      have hi1 : i < size.toNat := by omega
      obtain ⟨b, q, f1, f2, f3⟩ := hent i hi1
      have hold : (V.take size.toNat).getD i none = V.getD i none := by
        rw [List.getD_eq_getElem?_getD, List.getD_eq_getElem?_getD,
          List.getElem?_take_of_lt hi1]
      rw [hold] at f3
      refine ⟨b, q, f1, ?_, f2, ?_, ?_⟩
      · simp only [postPut, setLength, g2]
        rw [List.getElem?_append_left (by rw [List.length_map]; omega), List.getElem?_map, f1]
        rfl
      · intro hb e he
        obtain ⟨payload, hq⟩ := f3 hb
        refine ⟨payload, ?_⟩
        have hlt : i < s.value.length := by
          by_contra hc
          rw [List.getElem?_eq_none (by omega)] at he
          cases he
        have : V.getD i none = some e := by
          rw [List.getD_eq_getElem?_getD, hVget i, if_pos hlt, he]
          rfl
        rw [this] at hq
        exact hq
      · intro hb he
        obtain ⟨payload, hq⟩ := f3 hb
        refine ⟨payload, ?_⟩
        have : V.getD i none = none := by
          rw [List.getD_eq_getElem?_getD, hVget i]
          by_cases hlt : i < s.value.length
          · rw [if_pos hlt]
            rw [List.getElem?_eq_getElem hlt] at he ⊢
            cases hsv : s.value[i] with
            | none => rfl
            | some e => exact absurd (by rw [hsv]) (he e)
          · rw [if_neg hlt, if_pos hi1]
            rfl
        rw [this] at hq
        exact hq
    · intro i hi
      have hi1 : size.toNat ≤ i := by omega
      simp only [postPut, setLength, g2]
      rw [List.getElem?_append_right (by rw [List.length_map]; omega), List.length_map, hel,
        List.getElem?_drop]
      have : size.toNat + (i - size.toNat) = i := by omega
      rw [this, hVget i]
      by_cases hlt : i < s.value.length
      · rw [if_pos hlt]
      · rw [if_neg hlt, if_neg (by omega), List.getElem?_eq_none (by omega)]

/-- C19 on Scenario B with the input "size 5; 0; 1, payload [5]; 1, empty
payload; 0; 1, payload [8, 9]" followed by the byte 77. -/
theorem deserialize_spec_witness :
    isImmutable scenarioB = false ∧ isCapacityMutable scenarioB = true ∧
    ∃ t, deserialize sampleExternal [5, 0, 1, 1, 5, 1, 0, 0, 1, 2, 8, 9, 77] scenarioB =
        .ok (t, [77]) ∧
      getLength t = 5 ∧ getCapacity t = max (getCapacity scenarioB) 5 ∧
      t.postPuts = scenarioB.postPuts + 1 ∧
      (∀ i : Nat, (i : Int) < 5 →
        ∃ b q, [((0 : Int), (none : PVStructurePtr)),
            (1, some { getStructure := 7, payload := [5] }),
            (1, some { getStructure := 7, payload := [] }), (0, none),
            (1, some { getStructure := 7, payload := [8, 9] })][i]? = some (b, q) ∧
          t.value[i]? = some q ∧ (q = none ↔ b = 0) ∧
          (b ≠ 0 → ∀ e, scenarioB.value[i]? = some (some e) →
            ∃ payload, q = some { e with payload := payload }) ∧
          (b ≠ 0 → (∀ e, scenarioB.value[i]? ≠ some (some e)) →
            ∃ payload, q = some
              { createPVStructure sampleExternal scenarioB.structureArray.getStructure with
                payload := payload })) ∧
      (∀ i : Nat, (5 : Int) ≤ (i : Int) → t.value[i]? = scenarioB.value[i]?) :=
  ⟨rfl, rfl,
    (deserialize_spec sampleExternal [5, 0, 1, 1, 5, 1, 0, 0, 1, 2, 8, 9, 77]
      [0, 1, 1, 5, 1, 0, 0, 1, 2, 8, 9, 77] 5 scenarioB rfl rfl rfl).2 (by decide)
      [(0, none), (1, some { getStructure := 7, payload := [5] }),
        (1, some { getStructure := 7, payload := [] }), (0, none),
        (1, some { getStructure := 7, payload := [8, 9] })] [77] rfl⟩

end PVData
